import Mathlib

/-
Verification development for the source-structure extraction engine of
scripts/index_utils.py: the per-language call-reference extractors, the
indentation (Python) scanner, the shell scanner, the result assemblers and
the call-graph builder.

Conventions of the embedding:
* Python strings are Lean `String`; line or body text is handled as
  `List Char` (`String.data`).
* Python dicts are association lists `List (String × α)` in insertion order;
  assignment is `dictSet` (replace the value of an existing key in place,
  otherwise append at the end), which is exactly CPython dict semantics.
* A dict key that may be absent is an `Option` field; key deletion sets the
  field to `none`, so `some []` is "key present with an empty container" and
  `none` is "key absent".
* Each regular expression of the source is realised as an explicit character
  level matcher named after the pattern it implements.
-/

/-! ## Character classes and small string utilities -/

/-- Characters of the regex class [ \t] used for indentation groups. -/
def isIndentChar (c : Char) : Bool := c = ' ' || c = '\t'

/-- Characters of the regex class \s (Python whitespace, as stripped by str.strip). -/
def isPySpace (c : Char) : Bool :=
  c = ' ' || c = '\t' || c = '\n' || c = '\r' || c = Char.ofNat 11 || c = Char.ofNat 12

/-- Characters of the regex class \w (ASCII fragment: letters, digits, underscore). -/
def isWordChar (c : Char) : Bool := c.isAlpha || c.isDigit || c = '_'

/-- Uppercase identifier head class [A-Z_]. -/
def isUpperHead (c : Char) : Bool := ('A' ≤ c && c ≤ 'Z') || c = '_'

/-- Uppercase identifier tail class [A-Z0-9_]. -/
def isUpperTail (c : Char) : Bool := ('A' ≤ c && c ≤ 'Z') || c.isDigit || c = '_'

/-- The left curly bracket character (written by code point to keep it out of literals). -/
def lbrace : Char := Char.ofNat 123

/-- The right curly bracket character. -/
def rbrace : Char := Char.ofNat 125

/-- The backtick character. -/
def btick : Char := Char.ofNat 96

/-- Python str.lstrip(). -/
def pyLstrip (s : List Char) : List Char := s.dropWhile isPySpace

/-- Python str.rstrip(). -/
def pyRstrip (s : List Char) : List Char := (s.reverse.dropWhile isPySpace).reverse

/-- Python str.strip(). -/
def pyStrip (s : List Char) : List Char := pyRstrip (pyLstrip s)

/-- Python str.startswith for char lists: does `p` occur at the head of `s`. -/
def startsWithChars : List Char → List Char → Bool
  | _, [] => true
  | [], _ :: _ => false
  | c :: cs, p :: ps => c = p && startsWithChars cs ps

/-- Substring containment: does `pat` occur anywhere inside `s`. -/
def containsSub (s pat : List Char) : Bool :=
  match s with
  | [] => startsWithChars [] pat
  | _ :: rest => startsWithChars s pat || containsSub rest pat

/-- Python str.split(sep) for a single separator character. -/
def splitOnChar (sep : Char) : List Char → List (List Char)
  | [] => [[]]
  | c :: cs =>
    let r := splitOnChar sep cs
    if c = sep then [] :: r
    else
      match r with
      | [] => [[c]]
      | h :: t => (c :: h) :: t

/-- Number of occurrences of a character (Python str.count for one char). -/
def countChar (c : Char) (s : List Char) : Nat := (s.filter (fun d => d = c)).length

/-- Literal prefix consumption: drop `lit` from the head of `s` if present. -/
def dropLit (s : List Char) (lit : List Char) : Option (List Char) :=
  if startsWithChars s lit then some (s.drop lit.length) else none

/-- Maximal \w+ run at the head of a string. -/
def wordRun (s : List Char) : List Char := s.takeWhile isWordChar

/-- Code-point lexicographic comparison; this is the total order by which Python
sorted() orders strings. -/
def lexLe : List Char → List Char → Bool
  | [], _ => true
  | _ :: _, [] => false
  | a :: as, b :: bs =>
    if a.toNat < b.toNat then true
    else if a.toNat = b.toNat then lexLe as bs
    else false

/-- Code-point comparison lifted to String. -/
def strLe (a b : String) : Bool := lexLe a.data b.data

/-- Python sorted() on a list of strings. -/
def pySorted (l : List String) : List String :=
  List.insertionSort (fun a b => strLe a b = true) l

/-- Set-style insertion: add an element unless already present (Python set.add,
realised in first-insertion order). -/
def setAdd (l : List String) (x : String) : List String := if x ∈ l then l else l ++ [x]

/-- Fold `setAdd` over a list. -/
def setAddAll (l : List String) (xs : List String) : List String := xs.foldl setAdd l

/-! ## Association-list model of Python dicts -/

/-- Python dict assignment `m[k] = v`: replace the value of an existing key in
place, otherwise append the new pair at the end. -/
def dictSet {α : Type} : List (String × α) → String → α → List (String × α)
  | [], k, v => [(k, v)]
  | p :: rest, k, v => if p.1 = k then (k, v) :: rest else p :: dictSet rest k v

/-- Python dict lookup `m.get(k)`. -/
def dictGet {α : Type} : List (String × α) → String → Option α
  | [], _ => none
  | p :: rest, k => if p.1 = k then some p.2 else dictGet rest k

/-- Keys of a dict, in insertion order. -/
def dictKeys {α : Type} (m : List (String × α)) : List String := m.map Prod.fst

/-- Lookup defaulting to the empty list. -/
def getList (m : List (String × List String)) (k : String) : List String :=
  (dictGet m k).getD []

/-! ## Call-reference extractors (index_utils.py lines 74-129 and 906-925) -/

/-- Python extractor exclusion list (index_utils.py lines 81-87). -/
def python_exclude_keywords : List String :=
  ["if", "elif", "while", "for", "with", "except", "def", "class",
   "return", "yield", "raise", "assert", "print", "len", "str",
   "int", "float", "bool", "list", "dict", "set", "tuple", "type",
   "isinstance", "issubclass", "super", "range", "enumerate", "zip",
   "map", "filter", "sorted", "reversed", "open", "input", "eval"]

/-- JavaScript extractor exclusion list (index_utils.py lines 110-115). -/
def javascript_exclude_keywords : List String :=
  ["if", "while", "for", "switch", "catch", "function", "class",
   "return", "throw", "new", "typeof", "instanceof", "void",
   "console", "Array", "Object", "String", "Number", "Boolean",
   "Promise", "Math", "Date", "JSON", "parseInt", "parseFloat"]

/-- Word-boundary test of \b before position i of s. -/
def boundaryAt (s : List Char) (i : Nat) : Bool :=
  i = 0 || !(isWordChar (s.getD (i - 1) ' '))

/-- Name captured by the bare-call pattern \b(\w+)\s*\( when a match starts at
position i of s, if any. -/
def bareCandAt (s : List Char) (i : Nat) : Option String :=
  let t := s.drop i
  let w := wordRun t
  if w.isEmpty then none
  else if boundaryAt s i && (((t.drop w.length).dropWhile isPySpace).head? = some '(') then
    some (String.mk w)
  else none

/-- Name captured by the receiver-call pattern (receiver prefix, a dot, \w+, \s*
and an opening parenthesis) when the dot sits at position i of s, if any.  In the
source the receiver alternatives are self, cls (or this) and \w+; the first two
are subsumed by \w+, so a match needs exactly one word character before the dot. -/
def recvCandAt (s : List Char) (i : Nat) : Option String :=
  if s.getD i ' ' = '.' && decide (1 ≤ i) && isWordChar (s.getD (i - 1) ' ') then
    let t := s.drop (i + 1)
    let w := wordRun t
    if w.isEmpty then none
    else if ((t.drop w.length).dropWhile isPySpace).head? = some '(' then
      some (String.mk w)
    else none
  else none

/-- All names matched by the bare-call pattern anywhere in the body. -/
def bareCallNames (s : List Char) : List String :=
  (List.range s.length).filterMap (bareCandAt s)

/-- All names matched by the receiver-call pattern anywhere in the body. -/
def recvCallNames (s : List Char) : List String :=
  (List.range s.length).filterMap (recvCandAt s)

/-- Embedding of extract_function_calls_python (index_utils.py lines 74-101):
bare-call matches filtered through the known-symbol set and the exclusion list,
receiver matches filtered through the known-symbol set only, collected as a set
and returned sorted. -/
def extract_function_calls_python (body : String) (all_functions : List String) :
    List String :=
  let s := body.data
  let bare := (bareCallNames s).filter
    (fun n => all_functions.contains n && !(python_exclude_keywords.contains n))
  let recv := (recvCallNames s).filter (fun n => all_functions.contains n)
  pySorted (setAddAll [] (bare ++ recv))

/-- Embedding of extract_function_calls_javascript (index_utils.py lines
104-129); identical shape with the JavaScript exclusion list. -/
def extract_function_calls_javascript (body : String) (all_functions : List String) :
    List String :=
  let s := body.data
  let bare := (bareCallNames s).filter
    (fun n => all_functions.contains n && !(javascript_exclude_keywords.contains n))
  let recv := (recvCallNames s).filter (fun n => all_functions.contains n)
  pySorted (setAddAll [] (bare ++ recv))

/-- Does the shell pattern set hit an occurrence of name nm whose first character
is at position i of the body: the occurrence must end at a word boundary and be
anchored by one of (a) only whitespace between the start of its line and i,
(b) a ; & or | operator followed by whitespace, (c) a $( just before i,
(d) a backtick just before i. -/
def shellHitAt (body : List Char) (nm : List Char) (i : Nat) : Bool :=
  startsWithChars (body.drop i) nm
  && !(isWordChar (body.getD (i + nm.length) ' '))
  && (let pre := body.take i
      let lineprefix := (splitOnChar '\n' pre).getLastD []
      let revdrop := (pre.reverse).dropWhile isPySpace
      lineprefix.all isPySpace
      || (revdrop.head? = some ';' || revdrop.head? = some '&' || revdrop.head? = some '|')
      || (decide (2 ≤ i) && body.getD (i - 2) ' ' = '$' && body.getD (i - 1) ' ' = '(')
      || (decide (1 ≤ i) && body.getD (i - 1) ' ' = btick))

/-- Whether any of the four shell call patterns matches name nm in the body. -/
def shellCallHit (body : List Char) (nm : List Char) : Bool :=
  (List.range body.length).any (shellHitAt body nm)

/-- Embedding of extract_function_calls_shell (index_utils.py lines 906-925):
keep every known function name one of the four context patterns finds in the
body, sorted. -/
def extract_function_calls_shell (body : String) (all_functions : List String) :
    List String :=
  pySorted (setAddAll []
    (all_functions.filter (fun n => shellCallHit body.data n.data)))

/-! ## Symbol records -/

/-- Record stored for a function or method (the func_info dict of the source);
absent dict keys are none. -/
structure FuncInfo where
  line : Option Nat := none
  signature : Option String := none
  doc : Option String := none
  decorators : Option (List String) := none
  calls : Option (List String) := none
deriving DecidableEq, Repr

/-- A function-table value: the scanners store either a plain signature string
or a record dict. -/
inductive FuncVal where
  | str (s : String)
  | dict (info : FuncInfo)
deriving DecidableEq, Repr

/-- Record stored for a class (the class_info dict of the source). -/
structure ClassInfo where
  line : Option Nat := none
  methods : Option (List (String × FuncVal)) := none
  class_constants : Option (List (String × String)) := none
  decorators : Option (List String) := none
  inherits : Option (List String) := none
  type : Option String := none
  abstract : Option Bool := none
  doc : Option String := none
  values : Option (List String) := none
  properties : Option (List String) := none
deriving DecidableEq, Repr

/-- A class-table value as seen by the call-graph builder: a dict or any other
(non-dict) value. -/
inductive ClassVal where
  | str (s : String)
  | dict (info : ClassInfo)
deriving DecidableEq, Repr

/-! ## Call-graph builder (index_utils.py lines 132-158) -/

/-- Forward map construction: copy the calls list of every function whose value
is a dict containing calls, then of every Class.method with the same guard. -/
def build_calls_map (functions : List (String × FuncVal))
    (classes : List (String × ClassVal)) : List (String × List String) :=
  let m := functions.foldl
    (fun m p =>
      match p.2 with
      | .dict info =>
        match info.calls with
        | some cs => dictSet m p.1 cs
        | none => m
      | .str _ => m) []
  classes.foldl
    (fun m p =>
      match p.2 with
      | .dict cinfo =>
        match cinfo.methods with
        | some ms =>
          ms.foldl
            (fun m q =>
              match q.2 with
              | .dict info =>
                match info.calls with
                | some cs => dictSet m (p.1 ++ "." ++ q.1) cs
                | none => m
              | .str _ => m) m
        | none => m
      | .str _ => m) m

/-- Reverse-index step for one caller: append the caller to the list of every
callee unless already present (creating the entry first when absent). -/
def addCallers (m : List (String × List String)) (caller : String)
    (callees : List String) : List (String × List String) :=
  callees.foldl
    (fun m callee =>
      let cur := getList m callee
      dictSet m callee (if caller ∈ cur then cur else cur ++ [caller])) m

/-- Reverse map construction over all entries of the forward map. -/
def build_called_by_map (cm : List (String × List String)) :
    List (String × List String) :=
  cm.foldl (fun m p => addCallers m p.1 p.2) []

/-- Embedding of build_call_graph (index_utils.py lines 132-158). -/
def build_call_graph (functions : List (String × FuncVal))
    (classes : List (String × ClassVal)) :
    List (String × List String) × List (String × List String) :=
  let cm := build_calls_map functions classes
  (cm, build_called_by_map cm)

/-! ## Exact contents of the forward map (for C10) -/

/-- Entry list the claim describes: the function names whose value is a dict
containing calls, then for every class dict with methods the Class.method names
whose method value is a dict containing calls, each paired with its calls list
verbatim and in source iteration order. -/
def call_entries (functions : List (String × FuncVal))
    (classes : List (String × ClassVal)) : List (String × List String) :=
  functions.filterMap
    (fun p =>
      match p.2 with
      | .dict info => info.calls.map (fun cs => (p.1, cs))
      | .str _ => none)
  ++ (classes.map
    (fun p =>
      match p.2 with
      | .dict cinfo =>
        (cinfo.methods.getD []).filterMap
          (fun q =>
            match q.2 with
            | .dict info => info.calls.map (fun cs => (p.1 ++ "." ++ q.1, cs))
            | .str _ => none)
      | .str _ => [])).flatten

/-! ## Shell scanner (index_utils.py lines 928-1183) -/

/-- Match of the style-1 declaration pattern: a word, optional whitespace and
a literal pair of parentheses (the optional brace constrains nothing). -/
def shFunc1Match (s : List Char) : Option String :=
  let w := wordRun s
  if w.isEmpty then none
  else if startsWithChars ((s.drop w.length).dropWhile isPySpace) ['(', ')'] then
    some (String.mk w)
  else none

/-- Match of the style-2 declaration pattern: the keyword function, mandatory
whitespace and a word. -/
def shFunc2Match (s : List Char) : Option String :=
  match dropLit s "function".data with
  | none => none
  | some r =>
    match r with
    | c :: r2 =>
      if isPySpace c then
        let w := wordRun (r2.dropWhile isPySpace)
        if w.isEmpty then none else some (String.mk w)
      else none
    | [] => none

/-- Match of the export pattern: keyword, whitespace, an uppercase name and an
optional equals sign with the raw value text. -/
def shExportMatch (s : List Char) : Option (String × Option (List Char)) :=
  match dropLit s "export".data with
  | none => none
  | some r =>
    match r with
    | c :: r2 =>
      if isPySpace c then
        match r2.dropWhile isPySpace with
        | d :: r4 =>
          if isUpperHead d then
            let tail := r4.takeWhile isUpperTail
            let value : Option (List Char) :=
              match r4.drop tail.length with
              | '=' :: v => some v
              | _ => none
            some (String.mk (d :: tail), value)
          else none
        | [] => none
      else none
    | [] => none

/-- Value-type tag of an export (quotes, digits-only, otherwise value). -/
def shExportType (v : List Char) : String :=
  if v.head? = some '\'' || v.head? = some '"' then "str"
  else if !v.isEmpty && v.all Char.isDigit then "number"
  else "value"

/-- Match of the plain uppercase assignment pattern NAME=value with a nonempty
value. -/
def shVarMatch (s : List Char) : Option String :=
  match s with
  | d :: r =>
    if isUpperHead d then
      let tail := r.takeWhile isUpperTail
      match r.drop tail.length with
      | '=' :: v => if v.isEmpty then none else some (String.mk (d :: tail))
      | _ => none
    else none
  | [] => none

/-- Shared source-statement prefix: the keyword source or a dot, then mandatory
whitespace; returns the text after the whitespace. -/
def shSourcePrefix (s : List Char) : Option (List Char) :=
  let afterKw : Option (List Char) :=
    match dropLit s "source".data with
    | some r => some r
    | none =>
      match s with
      | '.' :: r => some r
      | _ => none
  match afterKw with
  | none => none
  | some r =>
    match r with
    | c :: r2 => if isPySpace c then some (r2.dropWhile isPySpace) else none
    | [] => none

/-- Source pattern 1: a quoted path (either quote, nonempty unquoted content,
the same closing quote); returns the content between the quotes. -/
def shSourceQuoted (r : List Char) : Option (List Char) :=
  match r with
  | q :: r2 =>
    if q = '\'' || q = '"' then
      let content := r2.takeWhile (fun c => !(c = '\'' || c = '"'))
      if content.isEmpty then none
      else
        match r2.drop content.length with
        | c :: _ => if c = q then some content else none
        | [] => none
    else none
  | [] => none

/-- Source pattern 2: a command substitution $( nonempty non-parenthesis text )
followed by any run of non-space characters; returns the whole match. -/
def shSourceCmdSub (r : List Char) : Option (List Char) :=
  match r with
  | '$' :: '(' :: r2 =>
    let inner := r2.takeWhile (fun c => c ≠ ')')
    if inner.isEmpty then none
    else
      match r2.drop inner.length with
      | ')' :: r3 =>
        let tail := r3.takeWhile (fun c => !isPySpace c)
        some ('$' :: '(' :: (inner ++ ')' :: tail))
      | _ => none
  | _ => none

/-- Source pattern 3: a bare nonempty run of non-space characters. -/
def shSourceBare (r : List Char) : Option (List Char) :=
  let t := r.takeWhile (fun c => !isPySpace c)
  if t.isEmpty then none else some t

/-- The three source patterns tried in priority order on a stripped line. -/
def shSourceFind (stripped : List Char) : Option (List Char) :=
  match shSourcePrefix stripped with
  | none => none
  | some r =>
    match shSourceQuoted r with
    | some content => some content
    | none =>
      match shSourceCmdSub r with
      | some path => some path
      | none => shSourceBare r

/-- Leading documentation comment: the stripped previous line when it starts
with a hash mark, with the hash removed and the remainder stripped. -/
def shDocFor (lines : List (List Char)) (i : Nat) : Option (List Char) :=
  if i = 0 then none
  else
    let prev := pyStrip (lines.getD (i - 1) [])
    if prev.head? = some '#' then some (pyStrip (prev.drop 1)) else none

/-- Decimal reading of a digit run. -/
def digitsToNat (ds : List Char) : Nat :=
  ds.foldl (fun acc c => acc * 10 + (c.toNat - 48)) 0

/-- Number read by a positional-parameter reference (a dollar sign followed by a
maximal nonempty digit run) starting at position i, if any. -/
def dollarNumAt (s : List Char) (i : Nat) : Option Nat :=
  if s.getD i ' ' = '$' then
    let ds := (s.drop (i + 1)).takeWhile Char.isDigit
    if ds.isEmpty then none else some (digitsToNat ds)
  else none

/-- All numbers of positional-parameter references in occurrence order, as
re.findall finds them. -/
def findDollarNums (s : List Char) : List Nat :=
  (List.range s.length).filterMap (dollarNumAt s)

/-- Append positive parameter numbers not yet present, in order. -/
def shAddParams (params : List Nat) (nums : List Nat) : List Nat :=
  nums.foldl (fun ps p => if 0 < p && !(ps.contains p) then ps ++ [p] else ps) params

/-- State of the bounded forward scan that sniffs positional parameters. -/
structure ShParamSt where
  params : List Nat
  brace : Int
  inBody : Bool
  done : Bool

/-- One line of the parameter scan: count braces on the stripped line (an
opening brace marks the body), stop when the depth falls to zero, and collect
dollar-number references of the raw line while inside the body. -/
def shParamStep (lineRaw : List Char) (st : ShParamSt) : ShParamSt :=
  if st.done then st
  else
    let lc := pyStrip lineRaw
    let inBody1 := st.inBody || decide (0 < countChar lbrace lc)
    let brace1 := st.brace + (countChar lbrace lc : Int)
    if 0 < countChar rbrace lc then
      let brace2 := brace1 - (countChar rbrace lc : Int)
      if brace2 ≤ 0 then { st with brace := brace2, inBody := inBody1, done := true }
      else
        { params := if inBody1 then shAddParams st.params (findDollarNums lineRaw)
                    else st.params,
          brace := brace2, inBody := inBody1, done := false }
    else
      { params := if inBody1 then shAddParams st.params (findDollarNums lineRaw)
                  else st.params,
        brace := brace1, inBody := inBody1, done := false }

/-- The parameter scan over the window of at most nineteen lines after the
declaration (range from i plus one to the minimum of i plus twenty and the line
count). -/
def shScanParams (lines : List (List Char)) (i : Nat) : List Nat :=
  let n := lines.length
  let idxs := (List.range (min (i + 20) n - (i + 1))).map (fun k => i + 1 + k)
  (idxs.foldl (fun st j => shParamStep (lines.getD j []) st)
    { params := [], brace := 0, inBody := false, done := false }).params

/-- Decimal digit rendering of a natural number (kernel-reducible). -/
def natDigitsAux : Nat → Nat → List Char
  | 0, _ => []
  | fuel + 1, n =>
    if n = 0 then []
    else natDigitsAux fuel (n / 10) ++ [Char.ofNat (48 + n % 10)]

/-- Decimal rendering of a natural number. -/
def natDigits (n : Nat) : List Char :=
  if n = 0 then ['0'] else natDigitsAux n n

/-- Join character lists with a separator character. -/
def joinWithChar (sep : Char) : List (List Char) → List Char
  | [] => []
  | [l] => l
  | l :: rest => l ++ sep :: joinWithChar sep rest

/-- Signature synthesis from the collected parameter numbers. -/
def shSignature (params : List Nat) : String :=
  match params with
  | [] => "()"
  | _ :: _ =>
    let maxp := params.foldl max 0
    let parts := (List.range maxp).map
      (fun k =>
        if k = 0 then ['$', '1']
        else '$' :: lbrace :: (natDigits (k + 1) ++ [rbrace]))
    String.mk ('(' :: (joinWithChar ' ' parts ++ [')']))

/-- State of the unbounded body scan. -/
structure ShBodySt where
  acc : List (List Char)
  brace : Int
  inBody : Bool
  done : Bool

/-- One line of the body scan: braces counted on the raw line, the line
collected once inside the body (including the closing line), stop when the
depth falls to zero. -/
def shBodyStep (lineRaw : List Char) (st : ShBodySt) : ShBodySt :=
  if st.done then st
  else
    let inBody1 := st.inBody || decide (0 < countChar lbrace lineRaw)
    let brace1 := st.brace + (countChar lbrace lineRaw : Int)
    let acc1 := if inBody1 then st.acc ++ [lineRaw] else st.acc
    if 0 < countChar rbrace lineRaw then
      let brace2 := brace1 - (countChar rbrace lineRaw : Int)
      { acc := acc1, brace := brace2, inBody := inBody1, done := brace2 ≤ 0 }
    else { acc := acc1, brace := brace1, inBody := inBody1, done := false }

/-- The body scan over every line after the declaration. -/
def shScanBody (lines : List (List Char)) (i : Nat) : List (List Char) :=
  let idxs := (List.range (lines.length - (i + 1))).map (fun k => i + 1 + k)
  (idxs.foldl (fun st j => shBodyStep (lines.getD j []) st)
    { acc := [], brace := 0, inBody := false, done := false }).acc

/-- Join with newlines (Python newline join). -/
def joinLines (ls : List (List Char)) : List Char := joinWithChar '\n' ls

/-- The record stored for one shell function declaration at line index i: doc
from the preceding comment, signature from the parameter scan, calls from the
body scan; a record that stays empty degenerates to the bare signature string. -/
def shBuildFunc (lines : List (List Char)) (allNames : List String) (i : Nat) :
    FuncVal :=
  let doc := shDocFor lines i
  let params := shScanParams lines i
  let signature := shSignature params
  let bodyLines := shScanBody lines i
  let info1 : FuncInfo :=
    if bodyLines.isEmpty then {}
    else
      let calls := extract_function_calls_shell (String.mk (joinLines bodyLines)) allNames
      if calls.isEmpty then {} else { calls := some calls }
  let info2 : FuncInfo :=
    match doc with
    | some d => if d.isEmpty then info1 else { info1 with doc := some (String.mk d) }
    | none => info1
  if info2 = ({} : FuncInfo) then FuncVal.str signature
  else FuncVal.dict { info2 with signature := some signature }

/-- Name-collection pre-pass over the raw (unstripped) lines, both declaration
styles. -/
def shAllFunctionNames (lines : List (List Char)) : List String :=
  lines.foldl
    (fun acc line =>
      let acc1 := match shFunc1Match line with
        | some n => setAdd acc n
        | none => acc
      match shFunc2Match line with
      | some n => setAdd acc1 n
      | none => acc1) []

/-- Mutable result tables of the shell scanner loop. -/
structure ShellSt where
  functions : List (String × FuncVal)
  variables' : List String
  exports : List (String × String)
  sources : List String

/-- One iteration of the shell scanner loop over line index i. -/
def shStep (lines : List (List Char)) (allNames : List String) (st : ShellSt)
    (i : Nat) : ShellSt :=
  let stripped := pyStrip (lines.getD i [])
  if stripped.isEmpty || startsWithChars stripped ['#', '!'] then st
  else
    match shFunc1Match stripped with
    | some fn =>
      { st with functions := dictSet st.functions fn (shBuildFunc lines allNames i) }
    | none =>
      match shFunc2Match stripped with
      | some fn =>
        { st with functions := dictSet st.functions fn (shBuildFunc lines allNames i) }
      | none =>
        match shExportMatch stripped with
        | some (vn, val) =>
          match val with
          | some v =>
            if v.isEmpty then st
            else { st with exports := dictSet st.exports vn (shExportType v) }
          | none => st
        | none =>
          match shVarMatch stripped with
          | some vn =>
            if !(dictKeys st.exports).contains vn && !st.variables'.contains vn then
              { st with variables' := st.variables' ++ [vn] }
            else st
          | none =>
            match shSourceFind stripped with
            | some path =>
              let p := pyStrip path
              if !p.isEmpty && !st.sources.contains (String.mk p) then
                { st with sources := st.sources ++ [String.mk p] }
              else st
            | none => st

/-- The shell scanner loop: a pre-pass for the known-symbol set, then one pass
over the line indices. -/
def shScan (lines : List (List Char)) : ShellSt :=
  let allNames := shAllFunctionNames lines
  (List.range lines.length).foldl (shStep lines allNames)
    { functions := [], variables' := [], exports := [], sources := [] }

/-- Result shape of extract_shell_signatures: the dict keys of the source, with
none for a deleted key. -/
structure ShellResult where
  functions : Option (List (String × FuncVal))
  variables' : Option (List String)
  exports : Option (List (String × String))
  sources : Option (List String)
  call_graph : Option (List (String × List String))
deriving DecidableEq, Repr

/-- Result assembly (index_utils.py lines 1175-1183): delete the variables,
exports and sources keys when empty; functions and call_graph always stay. -/
def shAssemble (st : ShellSt) : ShellResult :=
  { functions := some st.functions
    variables' := if st.variables'.isEmpty then none else some st.variables'
    exports := if st.exports.isEmpty then none else some st.exports
    sources := if st.sources.isEmpty then none else some st.sources
    call_graph := some [] }

/-- Embedding of extract_shell_signatures (index_utils.py lines 928-1183). -/
def extract_shell_signatures (content : String) : ShellResult :=
  shAssemble (shScan (splitOnChar '\n' content.data))

/-! ## Python scanner matchers (index_utils.py lines 161-504) -/

/-- Words of a string (maximal nonempty non-whitespace runs), used to realise
the whitespace-collapsing re.sub of the source. -/
def wsWordsAux : List Char → List Char → List (List Char)
  | [], cur => if cur.isEmpty then [] else [cur.reverse]
  | c :: rest, cur =>
    if isPySpace c then
      if cur.isEmpty then wsWordsAux rest [] else cur.reverse :: wsWordsAux rest []
    else wsWordsAux rest (c :: cur)

/-- Whitespace words of a string. -/
def wsWords (s : List Char) : List (List Char) := wsWordsAux s []

/-- The re.sub of every whitespace run by one space followed by strip. -/
def collapseWs (s : List Char) : List Char := joinWithChar ' ' (wsWords s)

/-- Text after the first occurrence of a character (Python split with count one,
second part). -/
def afterFirstChar (c : Char) (s : List Char) : List Char :=
  (s.dropWhile (fun d => d ≠ c)).drop 1

/-- Text before the first occurrence of a substring (Python split on a
separator string, first part; the whole string when absent). -/
def beforeFirstSub (s pat : List Char) : List Char :=
  match (List.range s.length).find? (fun k => startsWithChars (s.drop k) pat) with
  | some k => s.take k
  | none => s

/-- The def head of the function patterns: an optional async keyword with
mandatory whitespace, the keyword def, mandatory whitespace, a word, optional
whitespace and an opening parenthesis; returns the async flag, the name and the
text after the parenthesis. -/
def pyDefOpen (r : List Char) : Option (Bool × String × List Char) :=
  let tryDef : List Char → Option (String × List Char) := fun t =>
    match dropLit t "def".data with
    | none => none
    | some u =>
      match u with
      | c :: u2 =>
        if isPySpace c then
          let u3 := u2.dropWhile isPySpace
          let w := wordRun u3
          if w.isEmpty then none
          else
            match (u3.drop w.length).dropWhile isPySpace with
            | '(' :: rest => some (String.mk w, rest)
            | _ => none
        else none
      | [] => none
  match dropLit r "async".data with
  | some a =>
    match a with
    | c :: _ =>
      if isPySpace c then
        match tryDef (a.dropWhile isPySpace) with
        | some (nm, rest) => some (true, nm, rest)
        | none => (tryDef r).map (fun p => (false, p.1, p.2))
      else (tryDef r).map (fun p => (false, p.1, p.2))
    | [] => (tryDef r).map (fun p => (false, p.1, p.2))
  | none => (tryDef r).map (fun p => (false, p.1, p.2))

/-- Match of the function-start pattern: indentation width, async flag, name. -/
def pyFuncStartMatch (line : List Char) : Option (Nat × Bool × String) :=
  let ind := line.takeWhile isIndentChar
  match pyDefOpen (line.drop ind.length) with
  | some (isAsync, nm, _) => some (ind.length, isAsync, nm)
  | none => none

/-- The optional return annotation and terminating colon of the full function
pattern, applied to the text after a candidate closing parenthesis: either an
arrow with a greedy non-colon run before the colon, or the colon directly. -/
def pyRetAndColon (tail : List Char) : Option (Option (List Char)) :=
  let arrow : Option (Option (List Char)) :=
    match tail.dropWhile isPySpace with
    | '-' :: '>' :: t2 =>
      let pre := t2.takeWhile (fun c => c ≠ ':')
      match t2.drop pre.length with
      | ':' :: _ =>
        if pre.isEmpty then none
        else
          let k := min (t2.takeWhile isPySpace).length (pre.length - 1)
          some (some (pre.drop k))
      | _ => none
    | _ => none
  match arrow with
  | some r => some r
  | none =>
    match tail with
    | ':' :: _ => some none
    | _ => none

/-- Lazy parameter split of the full function pattern: the first closing
parenthesis whose remainder matches the return-and-colon tail. -/
def pyFuncSigSplit (rest : List Char) : Option (List Char × Option (List Char)) :=
  match (List.range rest.length).find?
      (fun k => rest.getD k ' ' = ')' && (pyRetAndColon (rest.drop (k + 1))).isSome) with
  | some k =>
    match pyRetAndColon (rest.drop (k + 1)) with
    | some ret => some (rest.take k, ret)
    | none => none
  | none => none

/-- Match of the full (single-line) function pattern: indentation width, async
flag, name, raw parameter text and optional raw return annotation. -/
def pyFuncFullMatch (s : List Char) : Option (Nat × Bool × String × List Char × Option (List Char)) :=
  let ind := s.takeWhile isIndentChar
  match pyDefOpen (s.drop ind.length) with
  | none => none
  | some (isAsync, nm, rest) =>
    match pyFuncSigSplit rest with
    | some (params, ret) => some (ind.length, isAsync, nm, params, ret)
    | none => none

/-- Signature-terminator search of the multi-line collection loop: a closing
parenthesis with a colon somewhere after it. -/
def hasSigTerminator (s : List Char) : Bool :=
  match s.dropWhile (fun c => c ≠ ')') with
  | [] => false
  | _ :: rest => rest.any (fun c => c = ':')

/-- The multi-line signature collection loop: starting from the stripped-right
declaration line, append the stripped following lines until one contains the
terminator; none when the end of file comes first.  The returned index is the
terminator line. -/
def collectSigAux (lines : List (List Char)) : Nat → List Char → Nat → Option (List Char × Nat)
  | 0, _, _ => none
  | fuel + 1, sig, j =>
    if j < lines.length then
      if hasSigTerminator (lines.getD j []) then some (sig, j)
      else if j + 1 < lines.length then
        collectSigAux lines fuel (sig ++ ' ' :: pyStrip (lines.getD (j + 1) [])) (j + 1)
      else none
    else none

/-- Signature collection entry point at the declaration line i. -/
def collectSig (lines : List (List Char)) (i : Nat) : Option (List Char × Nat) :=
  collectSigAux lines (lines.length + 1) (pyRstrip (lines.getD i [])) i

/-- Match of the class pattern: indentation width, name and the optional base
text (the lazy group stops at the first closing parenthesis directly followed
by the colon; without the parenthesised group the colon must follow the name
directly). -/
def pyClassMatch (line : List Char) : Option (Nat × String × Option (List Char)) :=
  let ind := line.takeWhile isIndentChar
  match dropLit (line.drop ind.length) "class".data with
  | none => none
  | some u =>
    match u with
    | c :: u2 =>
      if isPySpace c then
        let u3 := u2.dropWhile isPySpace
        let w := wordRun u3
        if w.isEmpty then none
        else
          let rest := u3.drop w.length
          let grp : Option (List Char) :=
            match rest.dropWhile isPySpace with
            | '(' :: r3 =>
              match (List.range r3.length).find?
                  (fun k => r3.getD k ' ' = ')' && r3.getD (k + 1) ' ' = ':') with
              | some k => some (r3.take k)
              | none => none
            | _ => none
          match grp with
          | some b => some (ind.length, String.mk w, some b)
          | none =>
            match rest with
            | ':' :: _ => some (ind.length, String.mk w, none)
            | _ => none
      else none
    | [] => none

/-- Match of the decorator pattern: an at sign, a word and either nothing or a
parenthesised tail reaching the end of the line. -/
def pyDecoratorMatch (line : List Char) : Option String :=
  match line.drop (line.takeWhile isIndentChar).length with
  | '@' :: r2 =>
    let w := wordRun r2
    if w.isEmpty then none
    else
      let rest := r2.drop w.length
      if rest.isEmpty then some (String.mk w)
      else
        match rest with
        | '(' :: _ => if rest.getLast? = some ')' then some (String.mk w) else none
        | _ => none
  | _ => none

/-- Tail of the import pattern after the import keyword: mandatory whitespace
then a greedy nonempty remainder (when only whitespace follows, the greedy
whitespace gives one character back). -/
def pyImportTail (u2 : List Char) : Option (List Char) :=
  match u2 with
  | c3 :: _ =>
    if isPySpace c3 then
      let sp := u2.takeWhile isPySpace
      let restI := u2.drop sp.length
      if restI.isEmpty then some (u2.drop (sp.length - 1)) else some restI
    else none
  | [] => none

/-- Match of the import pattern on a stripped line: an optional from clause
with the module reference, the import keyword and the raw item text. -/
def pyImportMatch (stripped : List Char) : Option (Option (List Char) × List Char) :=
  let importBranch : List Char → Option (List Char) := fun s =>
    match dropLit s "import".data with
    | none => none
    | some u => pyImportTail u
  let fromBranch : Option (Option (List Char) × List Char) :=
    match dropLit stripped "from".data with
    | none => none
    | some r =>
      match r with
      | c :: r2 =>
        if isPySpace c then
          let r3 := r2.dropWhile isPySpace
          let modname := r3.takeWhile (fun c => !isPySpace c)
          if modname.isEmpty then none
          else
            match r3.drop modname.length with
            | c2 :: _ =>
              if isPySpace c2 then
                match importBranch ((r3.drop modname.length).dropWhile isPySpace) with
                | some items => some (some modname, items)
                | none => none
              else none
            | [] => none
        else none
      | [] => none
  match fromBranch with
  | some r => some r
  | none =>
    match importBranch stripped with
    | some items => some (none, items)
    | none => none

/-- Split of the item text by commas, each item stripped and cut before a
possible as-alias. -/
def pyImportItems (items : List Char) : List String :=
  (splitOnChar ',' items).map (fun it => String.mk (beforeFirstSub (pyStrip it) " as ".data))

/-- The import pre-pass over the stripped lines (index_utils.py lines 212-224). -/
def pyImportsOf (lines : List (List Char)) : List String :=
  lines.foldl
    (fun acc line =>
      match pyImportMatch (pyStrip line) with
      | some (some modname, _) => acc ++ [String.mk modname]
      | some (none, items) => acc ++ pyImportItems items
      | none => acc) []

/-- The generic-alias heads of the type-alias pattern. -/
def pyTypeAliasKeywords : List (List Char) :=
  ["Union".data, "Optional".data, "List".data, "Dict".data, "Tuple".data,
   "Set".data, "Type".data, "Callable".data, "Literal".data, "TypeVar".data,
   "NewType".data, "TypedDict".data, "Protocol".data]

/-- Match of the type-alias pattern: a word, an equals sign, one of the alias
heads, an opening bracket, at least one character and the closing bracket at
the end of the line. -/
def pyTypeAliasMatch (line : List Char) : Option String :=
  let w := wordRun line
  if w.isEmpty then none
  else
    match (line.drop w.length).dropWhile isPySpace with
    | '=' :: r2 =>
      let r3 := r2.dropWhile isPySpace
      if pyTypeAliasKeywords.any
          (fun kw =>
            startsWithChars r3 kw && (r3.drop kw.length).head? = some '[' &&
            (let content := r3.drop (kw.length + 1)
             decide (2 ≤ content.length) && content.getLast? = some ']')) then
        some (String.mk w)
      else none
    | _ => none

/-- Value tail of the constant patterns after the equals sign: greedy nonempty
remainder with the one-character give-back of the whitespace run. -/
def pyValueTail (r2 : List Char) : Option (List Char) :=
  let sp := r2.takeWhile isPySpace
  let rest := r2.drop sp.length
  if rest.isEmpty then
    if sp.isEmpty then none else some (r2.drop (sp.length - 1))
  else some rest

/-- Match of the module-constant pattern at the start of the text: uppercase
name, equals sign and nonempty value. -/
def pyConstHead (s : List Char) : Option (String × List Char) :=
  match s with
  | d :: r =>
    if isUpperHead d then
      let tail := r.takeWhile isUpperTail
      match (r.drop tail.length).dropWhile isPySpace with
      | '=' :: r2 =>
        match pyValueTail r2 with
        | some v => some (String.mk (d :: tail), v)
        | none => none
      | _ => none
    else none
  | [] => none

/-- Match of the module-constant pattern (anchored at column zero). -/
def pyModuleConstMatch (line : List Char) : Option (String × List Char) :=
  pyConstHead line

/-- Match of the class-constant pattern: nonempty indentation then the constant
head. -/
def pyClassConstMatch (line : List Char) : Option (Nat × String × List Char) :=
  let ind := line.takeWhile isIndentChar
  if ind.isEmpty then none
  else
    match pyConstHead (line.drop ind.length) with
    | some (nm, v) => some (ind.length, nm, v)
    | none => none

/-- Coarse value-type tag of a constant (index_utils.py lines 259-269): comment
cut, strip, leading token tests, digits after removing dots and hyphens. -/
def pyConstType (raw : List Char) : String :=
  let v := pyStrip ((splitOnChar '#' raw).headD [])
  if v.head? = some lbrace || v.head? = some '[' then "collection"
  else if v.head? = some '\'' || v.head? = some '"' then "str"
  else
    let t := v.filter (fun c => !(c = '.' || c = '-'))
    if !t.isEmpty && t.all Char.isDigit then "number"
    else "value"

/-- Match of the annotated module-variable pattern: a word, a colon, at least
one non-equals character and an equals sign. -/
def pyModuleVarMatch (line : List Char) : Option String :=
  let w := wordRun line
  if w.isEmpty then none
  else
    match (line.drop w.length).dropWhile isPySpace with
    | ':' :: r2 =>
      let pre := r2.takeWhile (fun c => c ≠ '=')
      if pre.isEmpty then none
      else
        match r2.drop pre.length with
        | '=' :: _ => some (String.mk w)
        | _ => none
    | _ => none

/-- Match of the enum-value pattern: nonempty indentation, uppercase name and
either the end of the line or an equals sign with a nonempty value. -/
def pyEnumValMatch (line : List Char) : Option (Nat × String) :=
  let ind := line.takeWhile isIndentChar
  if ind.isEmpty then none
  else
    match line.drop ind.length with
    | d :: r =>
      if isUpperHead d then
        let tail := r.takeWhile isUpperTail
        let rest := (r.drop tail.length).dropWhile isPySpace
        if rest.isEmpty then some (ind.length, String.mk (d :: tail))
        else
          match rest with
          | '=' :: r2 =>
            match pyValueTail r2 with
            | some _ => some (ind.length, String.mk (d :: tail))
            | none => none
          | _ => none
      else none
    | [] => none

/-- Match of the class-property pattern: indentation, a word, a colon and at
least one following character that is whitespace or not an equals sign. -/
def pyPropertyMatch (line : List Char) : Option (Nat × String) :=
  let ind := line.takeWhile isIndentChar
  let r := line.drop ind.length
  let w := wordRun r
  if w.isEmpty then none
  else
    match (r.drop w.length).dropWhile isPySpace with
    | ':' :: r2 =>
      match r2 with
      | c :: _ => if isPySpace c || !(c = '=') then some (ind.length, String.mk w) else none
      | [] => none
    | _ => none

/-- Triple-quote test at the head of a string. -/
def tripleQuoteAt (s : List Char) : Bool :=
  startsWithChars s ['\'', '\'', '\''] || startsWithChars s ['"', '"', '"']

/-- Match of the docstring pattern: indentation, an opening triple quote, a
lazy nonempty content and any closing triple quote. -/
def pyDocstringMatch (line : List Char) : Option (List Char) :=
  let r := line.drop (line.takeWhile isIndentChar).length
  if tripleQuoteAt r then
    let r2 := r.drop 3
    match (List.range r2.length).find?
        (fun k => decide (1 ≤ k) && tripleQuoteAt (r2.drop k)) with
    | some k => some (r2.take k)
    | none => none
  else none

/-- The fixed special-method exclusion list (index_utils.py lines 209-210). -/
def skip_dunder : List String :=
  ["__repr__", "__str__", "__hash__", "__eq__", "__ne__",
   "__lt__", "__le__", "__gt__", "__ge__", "__bool__"]

/-! ## Python scanner loop (index_utils.py lines 161-542) -/

/-- Mutable state of the Python scanner loop. -/
structure PySt where
  functions : List (String × FuncVal)
  classes : List (String × ClassInfo)
  constants : List (String × String)
  variables' : List String
  type_aliases : List (String × String)
  curClass : Option (String × Nat)
  classStack : List (String × Nat)
  pendingDecorators : List String
deriving Repr

/-- Update in place of the record of an existing class key. -/
def updClass (classes : List (String × ClassInfo)) (name : String)
    (f : ClassInfo → ClassInfo) : List (String × ClassInfo) :=
  classes.map (fun p => if p.1 = name then (p.1, f p.2) else p)

/-- The nested-class stack pop (entries at or above the new indentation are
removed; the stack is kept top-first). -/
def popStack : List (String × Nat) → Nat → List (String × Nat)
  | [], _ => []
  | (n, l) :: rest, lvl => if lvl ≤ l then popStack rest lvl else (n, l) :: rest

/-- Leading-whitespace width of a line. -/
def leadingWs (line : List Char) : Nat := (line.takeWhile isPySpace).length

/-- Number of leading indentation characters. -/
def indentWidth (line : List Char) : Nat := (line.takeWhile isIndentChar).length

/-- Body collection of a declaration: every following line is taken while blank
or indented strictly deeper than the declaration, stopping at the first
nonblank line at or above that indentation. -/
def pyBodyLines (lines : List (List Char)) (start : Nat) (funcIndent : Nat) :
    List (List Char) :=
  let idxs := (List.range (lines.length - start)).map (fun k => start + k)
  (idxs.foldl
    (fun (st : List (List Char) × Bool) j =>
      if st.2 then st
      else
        let bl := lines.getD j []
        if (pyStrip bl).isEmpty then (st.1 ++ [bl], false)
        else if leadingWs bl ≤ funcIndent then (st.1, true)
        else (st.1 ++ [bl], false)) ([], false)).1

/-- The class record built for a top-level class line (index_utils.py lines
295-326): fresh methods and class_constants tables, pending decorators,
inheritance list with the enum, exception or abstract classification from the
lowercased base names, the docstring of the following line and the one-based
line number. -/
def pyClassInfoOf (lines : List (List Char)) (st : PySt) (i : Nat)
    (bases : Option (List Char)) : ClassInfo :=
  let info0 : ClassInfo := { methods := some [], class_constants := some [] }
  let info1 :=
    if st.pendingDecorators.isEmpty then info0
    else { info0 with decorators := some st.pendingDecorators }
  let info2 :=
    match bases with
    | some btext =>
      if btext.isEmpty then info1
      else
        let baseList : List (List Char) :=
          ((splitOnChar ',' btext).map pyStrip).filter (fun b => !b.isEmpty)
        if baseList.isEmpty then info1
        else
          let info' := { info1 with inherits := some (baseList.map String.mk) }
          let lower : List (List Char) :=
            List.map (fun b => List.map Char.toLower b) baseList
          if lower.contains "enum".data || lower.any (fun b => containsSub b "enum".data) then
            { info' with type := some "enum" }
          else if lower.contains "exception".data || lower.contains "error".data ||
              lower.any (fun b =>
                containsSub b "exception".data || containsSub b "error".data) then
            { info' with type := some "exception" }
          else if lower.contains "abc".data || lower.contains "protocol".data then
            { info' with abstract := some true }
          else info'
    | none => info1
  let info3 :=
    if i + 1 < lines.length then
      match pyDocstringMatch (lines.getD (i + 1) []) with
      | some d => { info2 with doc := some (String.mk (pyStrip d)) }
      | none => info2
    else info2
  { info3 with line := some (i + 1) }

/-- The class-line branch of the loop (index_utils.py lines 284-334): pop the
nested-class stack, record only an indentation-zero class (also making it
current and consuming pending decorators) and push the new entry. -/
def pyClassStep (lines : List (List Char)) (st : PySt) (i : Nat)
    (indentLevel : Nat) (cname : String) (bases : Option (List Char)) : PySt :=
  let stack1 := popStack st.classStack indentLevel
  if indentLevel = 0 then
    { st with classes := dictSet st.classes cname (pyClassInfoOf lines st i bases),
              curClass := some (cname, indentLevel),
              pendingDecorators := if st.pendingDecorators.isEmpty then st.pendingDecorators else [],
              classStack := (cname, indentLevel) :: stack1 }
  else
    { st with classStack := (cname, indentLevel) :: stack1 }

/-- The abstractmethod-decorator side effect on the current class
(index_utils.py lines 436-438). -/
def pyMarkAbstract (st : PySt) : List (String × ClassInfo) :=
  if !st.pendingDecorators.isEmpty && st.pendingDecorators.contains "abstractmethod" then
    match st.curClass with
    | some (ccName, _) =>
      updClass st.classes ccName (fun ci => { ci with abstract := some true })
    | none => st.classes
  else st.classes

/-- The function record built for a stored declaration (index_utils.py lines
420-484): one-based line number of the signature end, pending decorators, the
docstring of the following line, the calls found in the collected body and the
rendered signature. -/
def pyFuncInfoOf (lines : List (List Char)) (allNames : List String) (st : PySt)
    (j : Nat) (isAsync : Bool) (paramsRaw : List Char) (ret : Option (List Char))
    (indent : Nat) : FuncInfo :=
  let paramsC := collapseWs paramsRaw
  let sig1 : List Char := '(' :: (paramsC ++ [')'])
  let sig2 :=
    match ret with
    | some r => sig1 ++ (' ' :: '-' :: '>' :: ' ' :: pyStrip r)
    | none => sig1
  let sig3 := if isAsync then "async ".data ++ sig2 else sig2
  let info0 : FuncInfo := { line := some (j + 1) }
  let info1 :=
    if st.pendingDecorators.isEmpty then info0
    else { info0 with decorators := some st.pendingDecorators }
  let info2 :=
    if j + 1 < lines.length then
      match pyDocstringMatch (lines.getD (j + 1) []) with
      | some d => { info1 with doc := some (String.mk (pyStrip d)) }
      | none => info1
    else info1
  let bodyLines := pyBodyLines lines (j + 1) indent
  let info3 :=
    if bodyLines.isEmpty then info2
    else
      let calls := extract_function_calls_python (String.mk (joinLines bodyLines)) allNames
      if calls.isEmpty then info2 else { info2 with calls := some calls }
  { info3 with signature := some (String.mk sig3) }

/-- The placement of a stored function record (index_utils.py lines 486-492):
a method of the current class when indented deeper than it, a module function
at indentation zero, dropped otherwise. -/
def pyPlaceFunc (st1 : PySt) (indentLevel : Nat) (name : String) (fv : FuncVal) : PySt :=
  match st1.curClass with
  | some (ccName, cci) =>
    if cci < indentLevel then
      let cls := updClass st1.classes ccName
        (fun ci => { ci with methods := some (dictSet (ci.methods.getD []) name fv) })
      { st1 with classes := cls }
    else if indentLevel = 0 then
      { st1 with functions := dictSet st1.functions name (fv) }
    else st1
  | none =>
    if indentLevel = 0 then
      { st1 with functions := dictSet st1.functions name (fv) }
    else st1

/-- The function-line branch of the loop (index_utils.py lines 378-492),
starting after a successful full-signature parse with the loop index moved to
the terminator line j: mark the current class abstract on an abstractmethod
decorator, consume pending decorators, build and place the record. -/
def pyFuncStore (lines : List (List Char)) (allNames : List String) (st : PySt)
    (j : Nat) (indentLevel : Nat) (isAsync : Bool) (name : String)
    (paramsRaw : List Char) (ret : Option (List Char)) (indent : Nat) : PySt :=
  let info4 := pyFuncInfoOf lines allNames st j isAsync paramsRaw ret indent
  let pend1 : List String := if st.pendingDecorators.isEmpty then st.pendingDecorators else []
  let st1 := { st with classes := pyMarkAbstract st, pendingDecorators := pend1 }
  pyPlaceFunc st1 indentLevel name (FuncVal.dict info4)

/-- The class-property check that closes a loop iteration (index_utils.py lines
494-502). -/
def pyPropertyCheck (line : List Char) (st : PySt) : PySt :=
  match st.curClass with
  | some (ccName, cci) =>
    match pyPropertyMatch line with
    | some (ind, pname) =>
      if cci < ind && !startsWithChars pname.data ['_'] then
        let cls := updClass st.classes ccName
          (fun ci => { ci with properties := some ((ci.properties.getD []) ++ [pname]) })
        { st with classes := cls }
      else st
    | none => st
  | none => st

/-- The module-level branch chain of a loop iteration (type aliases, module
constants, annotated module variables; index_utils.py lines 247-281), active
only while no class is current. -/
def pyModuleStep (line : List Char) (st : PySt) (i : Nat) : Option (PySt × Nat) :=
  if st.curClass.isSome then none
  else
    match pyTypeAliasMatch line with
    | some aname =>
      let ta := dictSet st.type_aliases aname (String.mk (pyStrip (afterFirstChar '=' line)))
      some ({ st with type_aliases := ta }, i + 1)
    | none =>
      match pyModuleConstMatch line with
      | some (cname, cval) =>
        some ({ st with constants := dictSet st.constants cname (pyConstType cval) }, i + 1)
      | none =>
        match pyModuleVarMatch line with
        | some vname =>
          let st1 :=
            if !st.variables'.contains vname && !startsWithChars vname.data ['_'] then
              { st with variables' := st.variables' ++ [vname] }
            else st
          some (st1, i + 1)
        | none => none

/-- The dedent check (index_utils.py lines 337-341): drop the current class
when a nonblank non-comment line dedents to or past its indentation. -/
def pyDedent (line stripped : List Char) (st : PySt) : PySt :=
  match st.curClass with
  | some (_, cci) =>
    if !stripped.isEmpty && leadingWs line ≤ cci && !startsWithChars stripped ['#'] then
      { st with curClass := none }
    else st
  | none => st

/-- The enum-value branch (index_utils.py lines 344-357). -/
def pyEnumStep (line : List Char) (st : PySt) (i : Nat) : Option (PySt × Nat) :=
  match st.curClass with
  | some (ccName, cci) =>
    if ((dictGet st.classes ccName).bind ClassInfo.type) = some "enum" then
      match pyEnumValMatch line with
      | some (ind, ename) =>
        if cci < ind then
          let cls := updClass st.classes ccName
            (fun ci => { ci with values := some ((ci.values.getD []) ++ [ename]) })
          some ({ st with classes := cls }, i + 1)
        else none
      | none => none
    else none
  | none => none

/-- The class-constant branch (index_utils.py lines 359-376). -/
def pyClassConstStep (line : List Char) (st : PySt) (i : Nat) : Option (PySt × Nat) :=
  match st.curClass with
  | some (ccName, cci) =>
    match pyClassConstMatch line with
    | some (ind, cname2, cval) =>
      if cci < ind then
        let v2 := pyConstType cval
        let upd1 : ClassInfo → ClassInfo := fun ci =>
          { ci with class_constants := some (dictSet (ci.class_constants.getD []) cname2 v2) }
        some ({ st with classes := updClass st.classes ccName upd1 }, i + 1)
      else none
    | none => none
  | none => none

/-- The function branch (index_utils.py lines 378-492): none when the line does
not start a definition; otherwise the outcome of signature collection, full
parse, the dunder filter and the store, the property check running only on the
stored path. -/
def pyFuncStep (lines : List (List Char)) (allNames : List String) (line : List Char)
    (st : PySt) (i : Nat) : Option (PySt × Nat) :=
  match pyFuncStartMatch line with
  | none => none
  | some (indentLevel, _, _) =>
    match collectSig lines i with
    | none => some (st, i + 1)
    | some (fullSig, j) =>
      match pyFuncFullMatch fullSig with
      | none => some (st, i + 1)
      | some (indent, isAsync, name, paramsRaw, ret) =>
        if skip_dunder.contains name && !(name = "__init__") then
          some (st, j + 1)
        else
          let st3 := pyFuncStore lines allNames st j indentLevel isAsync
            name paramsRaw ret indent
          some (pyPropertyCheck line st3, j + 1)

/-- One iteration of the Python scanner loop at line index i, returning the new
state and the next index; the branch order and the continue statements follow
index_utils.py lines 230-504. -/
def pyStep (lines : List (List Char)) (allNames : List String) (st : PySt)
    (i : Nat) : PySt × Nat :=
  let line := lines.getD i []
  let stripped := pyStrip line
  if startsWithChars stripped ['#'] || tripleQuoteAt stripped then
    (st, i + 1)
  else
    match pyDecoratorMatch line with
    | some dname => ({ st with pendingDecorators := st.pendingDecorators ++ [dname] }, i + 1)
    | none =>
      match pyModuleStep line st i with
      | some r => r
      | none =>
        match pyClassMatch line with
        | some (indentLevel, cname, bases) =>
          (pyClassStep lines st i indentLevel cname bases, i + 1)
        | none =>
          let st2 := pyDedent line stripped st
          match pyEnumStep line st2 i with
          | some r => r
          | none =>
            match pyClassConstStep line st2 i with
            | some r => r
            | none =>
              match pyFuncStep lines allNames line st2 i with
              | some r => r
              | none => (pyPropertyCheck line st2, i + 1)

/-- The fuelled scanner loop; the index advances by at least one every
iteration, so a fuel of the line count always suffices. -/
def pyScanLoop (lines : List (List Char)) (allNames : List String) :
    Nat → PySt → Nat → PySt
  | 0, st, _ => st
  | fuel + 1, st, i =>
    if i < lines.length then
      let r := pyStep lines allNames st i
      pyScanLoop lines allNames fuel r.1 r.2
    else st

/-- The scanner: name-collection pre-pass, then the loop from line zero. -/
def pyScan (lines : List (List Char)) : PySt :=
  let allNames := lines.foldl
    (fun acc line =>
      match pyFuncStartMatch line with
      | some (_, _, nm) => setAdd acc nm
      | none => acc) []
  pyScanLoop lines allNames lines.length
    { functions := [], classes := [], constants := [], variables' := [],
      type_aliases := [], curClass := none, classStack := [], pendingDecorators := [] } 0

/-- An entry of the enums table: only the member values and the doc line. -/
structure EnumEntry where
  values : List String
  doc : String
deriving DecidableEq, Repr

/-- Result shape of extract_python_signatures: the dict keys of the source, with
none for a deleted key. -/
structure PyResult where
  imports : Option (List String)
  functions : Option (List (String × FuncVal))
  classes : Option (List (String × ClassInfo))
  constants : Option (List (String × String))
  variables' : Option (List String)
  type_aliases : Option (List (String × String))
  enums : Option (List (String × EnumEntry))
  call_graph : Option (List (String × List String))
deriving DecidableEq, Repr

/-- Per-class cleanup (index_utils.py lines 506-515): delete the empty
properties, class_constants, decorators and values keys. -/
def pyCleanClass (ci : ClassInfo) : ClassInfo :=
  { ci with
    properties := match ci.properties with | some [] => none | x => x,
    class_constants := match ci.class_constants with | some [] => none | x => x,
    decorators := match ci.decorators with | some [] => none | x => x,
    values := match ci.values with | some [] => none | x => x }

/-- The class table after the per-class cleanup. -/
def pyCleanedClasses (st : PySt) : List (String × ClassInfo) :=
  st.classes.map (fun p => (p.1, pyCleanClass p.2))

/-- The migrated enum table (index_utils.py lines 529-536): the enum-classified
classes, carrying only their values list and doc. -/
def pyEnumsMove (st : PySt) : List (String × EnumEntry) :=
  ((pyCleanedClasses st).filter (fun p => p.2.type = some "enum")).map
    (fun p => (p.1, ({ values := p.2.values.getD [], doc := p.2.doc.getD "" } : EnumEntry)))

/-- The class table after the migration deleted the enum-classified classes. -/
def pyKeptClasses (st : PySt) : List (String × ClassInfo) :=
  (pyCleanedClasses st).filter (fun p => !(p.2.type = some "enum"))

/-- Result assembly (index_utils.py lines 506-542): per-class cleanup, deletion
of the empty module-level keys (the enums table, never filled before this
point, is always deleted), then migration of the enum-classified classes into a
fresh enums table carrying only values and doc. -/
def pyAssemble (imports : List String) (st : PySt) : PyResult :=
  { imports := if imports.isEmpty then none else some imports
    functions := some st.functions
    classes := some (pyKeptClasses st)
    constants := if st.constants.isEmpty then none else some st.constants
    variables' := if st.variables'.isEmpty then none else some st.variables'
    type_aliases := if st.type_aliases.isEmpty then none else some st.type_aliases
    enums := if (pyEnumsMove st).isEmpty then none else some (pyEnumsMove st)
    call_graph := some [] }

/-- Embedding of extract_python_signatures (index_utils.py lines 161-542). -/
def extract_python_signatures (content : String) : PyResult :=
  let lines := splitOnChar '\n' content.data
  pyAssemble (pyImportsOf lines) (pyScan lines)

/-! ## JavaScript result shape and cleanup (index_utils.py lines 545-557, 884-903) -/

/-- Record stored for an interface. -/
structure InterfaceInfo where
  extends' : Option (List String) := none
  doc : Option String := none
deriving DecidableEq, Repr

/-- An entry of the JavaScript enums table. -/
structure JSEnumEntry where
  values : List String
deriving DecidableEq, Repr

/-- Record stored for a JavaScript class; methods and static_constants are
created with the record, the latter deletable by the cleanup. -/
structure JSClassInfo where
  line : Option Nat := none
  methods : List (String × FuncVal) := []
  static_constants : Option (List (String × String)) := none
  extends' : Option String := none
  type : Option String := none
  doc : Option String := none
deriving DecidableEq, Repr

/-- The full result dict of extract_javascript_signatures before its final
cleanup. -/
structure JSFull where
  imports : List String
  functions : List (String × FuncVal)
  classes : List (String × JSClassInfo)
  constants : List (String × String)
  variables' : List String
  type_aliases : List (String × String)
  interfaces : List (String × InterfaceInfo)
  enums : List (String × JSEnumEntry)
  call_graph : List (String × List String)
deriving Repr

/-- Result shape of extract_javascript_signatures after cleanup. -/
structure JSResult where
  imports : Option (List String)
  functions : Option (List (String × FuncVal))
  classes : Option (List (String × JSClassInfo))
  constants : Option (List (String × String))
  variables' : Option (List String)
  type_aliases : Option (List (String × String))
  interfaces : Option (List (String × InterfaceInfo))
  enums : Option (List (String × JSEnumEntry))
  call_graph : Option (List (String × List String))
deriving Repr

/-- The JavaScript result cleanup (index_utils.py lines 884-903): empty
static_constants deleted per class, then the empty constants, variables,
imports, type_aliases, interfaces and enums keys deleted; functions, classes
and call_graph always stay. -/
def jsCleanup (full : JSFull) : JSResult :=
  let classes1 := full.classes.map
    (fun p => (p.1,
      { p.2 with static_constants :=
          match p.2.static_constants with | some [] => none | x => x }))
  { imports := if full.imports.isEmpty then none else some full.imports
    functions := some full.functions
    classes := some classes1
    constants := if full.constants.isEmpty then none else some full.constants
    variables' := if full.variables'.isEmpty then none else some full.variables'
    type_aliases := if full.type_aliases.isEmpty then none else some full.type_aliases
    interfaces := if full.interfaces.isEmpty then none else some full.interfaces
    enums := if full.enums.isEmpty then none else some full.enums
    call_graph := some full.call_graph }

/-- Class type of a result entry. -/
def classTypeOf (r : PyResult) (cls : String) : Option String :=
  (dictGet (r.classes.getD []) cls).bind ClassInfo.type

/-- Calls list of a method record of a result entry (none when the method is
absent, a bare string, or has no calls key). -/
def methodCallsOf (r : PyResult) (cls mth : String) : Option (List String) :=
  ((dictGet (r.classes.getD []) cls).bind
    (fun ci => dictGet (ci.methods.getD []) mth)).bind
    (fun v => match v with | .dict fi => fi.calls | .str _ => none)

/-! ## Multi-line signature collection (C5) -/

/-- The concatenation the collection loop builds when the first terminator line
at or after i is j0: the stripped-right declaration line followed by the
stripped lines up to and including j0, separated by single spaces. -/
def collectedSig (lines : List (List Char)) (i j0 : Nat) : List Char :=
  pyRstrip (lines.getD i []) ++
    (((List.range' (i + 1) (j0 - i)).map
      (fun k => ' ' :: pyStrip (lines.getD k []))).flatten)

/-! ## Dict lemmas -/

theorem dictGet_dictSet {α : Type} (m : List (String × α)) (k : String) (v : α)
    (q : String) :
    dictGet (dictSet m k v) q = if k = q then some v else dictGet m q := by
  induction m with
  | nil =>
    simp [dictSet, dictGet]
  | cons p rest ih =>
    simp only [dictSet]
    by_cases hpk : p.1 = k
    · by_cases hkq : k = q
      · simp [dictGet, hpk, hkq]
      · have hpq : ¬ p.1 = q := by rw [hpk]; exact hkq
        simp [dictGet, hpk, hkq, hpq]
    · by_cases hpq : p.1 = q
      · have hkq : ¬ k = q := fun h => hpk (hpq.trans h.symm)
        have hqk : ¬ q = k := fun h => hkq h.symm
        simp [dictGet, hpk, hpq, hkq, hqk]
      · simp [dictGet, hpk, hpq, ih]

theorem getList_dictSet (m : List (String × List String)) (k : String)
    (v : List String) (q : String) :
    getList (dictSet m k v) q = if k = q then v else getList m q := by
  simp only [getList, dictGet_dictSet]
  by_cases h : k = q <;> simp [h]

theorem dictSet_fresh {α : Type} (m : List (String × α)) (k : String) (v : α)
    (h : k ∉ dictKeys m) : dictSet m k v = m ++ [(k, v)] := by
  induction m with
  | nil => simp [dictSet]
  | cons p rest ih =>
    simp only [dictKeys, List.map_cons, List.mem_cons] at h
    push_neg at h
    have hpk : ¬ p.1 = k := fun hh => h.1 hh.symm
    simp [dictSet, hpk, ih (by simpa [dictKeys] using h.2)]

theorem dictKeys_dictSet_mem {α : Type} (m : List (String × α)) (k : String) (v : α)
    (h : k ∈ dictKeys m) : dictKeys (dictSet m k v) = dictKeys m := by
  induction m with
  | nil => simp [dictKeys] at h
  | cons p rest ih =>
    by_cases hpk : p.1 = k
    · simp [dictSet, dictKeys, hpk]
    · have hmem : k ∈ dictKeys rest := by
        simp only [dictKeys, List.map_cons, List.mem_cons] at h
        rcases h with h | h
        · exact absurd h.symm hpk
        · exact h
      rw [show dictSet (p :: rest) k v = p :: dictSet rest k v by simp [dictSet, hpk]]
      show p.1 :: dictKeys (dictSet rest k v) = p.1 :: dictKeys rest
      rw [ih hmem]

theorem nodup_dictKeys_dictSet {α : Type} (m : List (String × α)) (k : String)
    (v : α) (h : (dictKeys m).Nodup) : (dictKeys (dictSet m k v)).Nodup := by
  by_cases hk : k ∈ dictKeys m
  · rw [dictKeys_dictSet_mem m k v hk]; exact h
  · rw [dictSet_fresh m k v hk]
    simp only [dictKeys, List.map_append, List.map_cons, List.map_nil]
    rw [List.nodup_append]
    refine ⟨h, by simp, ?_⟩
    intro a ha
    simp only [List.mem_singleton]
    intro hb
    rw [hb] at ha
    exact hk ha

theorem dictGet_mem {α : Type} (m : List (String × α)) (k : String) (v : α)
    (h : dictGet m k = some v) : (k, v) ∈ m := by
  induction m with
  | nil => simp [dictGet] at h
  | cons p rest ih =>
    by_cases hpk : p.1 = k
    · simp only [dictGet, hpk, if_true, Option.some.injEq] at h
      rcases p with ⟨a, b⟩
      simp only at hpk h
      rw [hpk, h]
      exact List.mem_cons_self _ _
    · simp only [dictGet, hpk, if_false] at h
      exact List.mem_cons_of_mem _ (ih h)

theorem mem_dictGet {α : Type} (m : List (String × α)) (k : String) (v : α)
    (hnd : (dictKeys m).Nodup) (h : (k, v) ∈ m) : dictGet m k = some v := by
  induction m with
  | nil => simp at h
  | cons p rest ih =>
    simp only [dictKeys, List.map_cons, List.nodup_cons] at hnd
    rcases List.mem_cons.mp h with h1 | h2
    · simp [dictGet, ← h1]
    · have hpk : ¬ p.1 = k := by
        intro hh
        exact hnd.1 (hh ▸ (List.mem_map_of_mem Prod.fst h2))
      simp only [dictGet, hpk, if_false]
      exact ih hnd.2 h2

theorem foldl_dictSet_fresh {α : Type} (entries : List (String × α)) :
    ∀ acc : List (String × α), (dictKeys entries).Nodup →
      (∀ k ∈ dictKeys entries, k ∉ dictKeys acc) →
      entries.foldl (fun m e => dictSet m e.1 e.2) acc = acc ++ entries := by
  induction entries with
  | nil => intro acc _ _; simp
  | cons e rest ih =>
    intro acc hnd hdisj
    simp only [dictKeys, List.map_cons, List.nodup_cons] at hnd
    have he : e.1 ∉ dictKeys acc := hdisj e.1 (by simp [dictKeys])
    have hstep : dictSet acc e.1 e.2 = acc ++ [e] := dictSet_fresh acc e.1 e.2 he
    have hrest : ∀ k ∈ dictKeys rest, k ∉ dictKeys (acc ++ [e]) := by
      intro k hk
      have hka : k ∉ dictKeys acc :=
        hdisj k (by simp only [dictKeys, List.map_cons, List.mem_cons]; right; exact hk)
      have hke : k ≠ e.1 := by
        intro hh
        rw [hh] at hk
        exact hnd.1 hk
      simp only [dictKeys, List.map_append, List.mem_append, List.map_cons, List.map_nil,
        List.mem_singleton]
      rintro (hc | hc)
      · exact hka hc
      · exact hke (by simpa using hc)
    calc (e :: rest).foldl (fun m e => dictSet m e.1 e.2) acc
        = rest.foldl (fun m e => dictSet m e.1 e.2) (acc ++ [e]) := by
          rw [List.foldl_cons, hstep]
      _ = (acc ++ [e]) ++ rest := ih (acc ++ [e]) hnd.2 hrest
      _ = acc ++ (e :: rest) := by simp

/-! ## Call-graph lemmas -/

theorem addCallers_getList (callees : List String) :
    ∀ (m : List (String × List String)) (caller y : String),
      getList (addCallers m caller callees) y
        = if y ∈ callees then
            (if caller ∈ getList m y then getList m y else getList m y ++ [caller])
          else getList m y := by
  induction callees with
  | nil => intro m caller y; simp [addCallers]
  | cons c cs ih =>
    intro m caller y
    have hstep : addCallers m caller (c :: cs)
        = addCallers (dictSet m c
            (if caller ∈ getList m c then getList m c else getList m c ++ [caller]))
            caller cs := by
      simp [addCallers, List.foldl_cons]
    rw [hstep, ih]
    by_cases hyc : y = c
    · subst hyc
      by_cases hys : y ∈ cs
      · by_cases hcall : caller ∈ getList m y
        · simp [getList_dictSet, hys, hcall]
        · simp [getList_dictSet, hys, hcall]
      · by_cases hcall : caller ∈ getList m y
        · simp [getList_dictSet, hys, hcall]
        · simp [getList_dictSet, hys, hcall]
    · have hne : ¬ c = y := fun h => hyc h.symm
      by_cases hys : y ∈ cs <;> simp [getList_dictSet, hne, hys, hyc]

theorem invert_getList (cm : List (String × List String)) :
    ∀ (acc : List (String × List String)) (y : String),
      (∀ p ∈ cm, p.1 ∉ getList acc y) → (dictKeys cm).Nodup →
      getList (cm.foldl (fun m p => addCallers m p.1 p.2) acc) y
        = getList acc y ++ (cm.filter (fun p => p.2.contains y)).map Prod.fst := by
  induction cm with
  | nil => intro acc y _ _; simp
  | cons p rest ih =>
    intro acc y hnotin hnd
    simp only [dictKeys, List.map_cons, List.nodup_cons] at hnd
    have hp : p.1 ∉ getList acc y := hnotin p (by simp)
    have hacc : getList (addCallers acc p.1 p.2) y
        = if y ∈ p.2 then getList acc y ++ [p.1] else getList acc y := by
      rw [addCallers_getList]
      by_cases hy : y ∈ p.2 <;> simp [hy, hp]
    have hrest : ∀ q ∈ rest, q.1 ∉ getList (addCallers acc p.1 p.2) y := by
      intro q hq
      have hq1 : q.1 ∉ getList acc y := hnotin q (List.mem_cons_of_mem _ hq)
      have hq2 : q.1 ≠ p.1 := by
        intro hh
        exact hnd.1 (hh ▸ (List.mem_map_of_mem Prod.fst hq))
      rw [hacc]
      by_cases hy : y ∈ p.2 <;> simp [hy, hq1, hq2]
    rw [List.foldl_cons, ih _ y hrest hnd.2, hacc]
    by_cases hy : y ∈ p.2
    · simp [List.filter_cons, List.elem_iff, hy]
    · simp [List.filter_cons, List.elem_iff, hy]

theorem foldl_preserves {β M : Type _} (P : M → Prop) (g : M → β → M)
    (h : ∀ m b, P m → P (g m b)) :
    ∀ (l : List β) (m : M), P m → P (l.foldl g m) := by
  intro l
  induction l with
  | nil => intro m hm; simpa using hm
  | cons b rest ih => intro m hm; simpa using ih (g m b) (h m b hm)

theorem nodup_dictKeys_build_calls_map (functions : List (String × FuncVal))
    (classes : List (String × ClassVal)) :
    (dictKeys (build_calls_map functions classes)).Nodup := by
  have hfun : (dictKeys (functions.foldl
      (fun m p =>
        match p.2 with
        | .dict info =>
          match info.calls with
          | some cs => dictSet m p.1 cs
          | none => m
        | .str _ => m) [])).Nodup := by
    apply foldl_preserves (fun m => (dictKeys m).Nodup)
    · intro m p hm
      rcases p with ⟨k, v⟩
      cases v with
      | str s => exact hm
      | dict info =>
        dsimp only
        cases info.calls with
        | none => exact hm
        | some cs => exact nodup_dictKeys_dictSet m k cs hm
    · simp [dictKeys]
  apply foldl_preserves (fun m => (dictKeys m).Nodup)
  · intro m p hm
    rcases p with ⟨cn, cv⟩
    cases cv with
    | str s => exact hm
    | dict cinfo =>
      dsimp only
      cases cinfo.methods with
      | none => exact hm
      | some ms =>
        apply foldl_preserves (fun m => (dictKeys m).Nodup)
        · intro m q hm
          rcases q with ⟨mn, mv⟩
          cases mv with
          | str s => exact hm
          | dict info =>
            dsimp only
            cases info.calls with
            | none => exact hm
            | some cs => exact nodup_dictKeys_dictSet m _ cs hm
        · exact hm
  · exact hfun

theorem mem_getList_iff (m : List (String × List String))
    (hnd : (dictKeys m).Nodup) (x y : String) :
    y ∈ getList m x ↔ x ∈ (m.filter (fun p => p.2.contains y)).map Prod.fst := by
  constructor
  · intro hy
    simp only [getList] at hy
    cases hg : dictGet m x with
    | none => rw [hg] at hy; simp at hy
    | some l =>
      rw [hg] at hy
      simp only [Option.getD_some] at hy
      have hmem : (x, l) ∈ m := dictGet_mem m x l hg
      refine List.mem_map.mpr ⟨(x, l), List.mem_filter.mpr ⟨hmem, ?_⟩, rfl⟩
      simpa [List.elem_iff] using hy
  · intro hx
    rcases List.mem_map.mp hx with ⟨p, hp, hfst⟩
    rcases List.mem_filter.mp hp with ⟨hpm, hpy⟩
    have hget : dictGet m x = some p.2 := by
      rw [← hfst]
      rcases p with ⟨a, b⟩
      exact mem_dictGet m a b hnd hpm
    simp only [getList, hget, Option.getD_some]
    simpa [List.elem_iff] using hpy

/-- C1: for every functions and classes mapping, the assembled graph satisfies
adjacency symmetry (calls_map of x contains y exactly when called_by_map of y
contains x), every called_by_map list is duplicate-free, and it lists the
callers in first-discovery order: the order of the calls_map entries whose
lists contain y.  Methods are keyed as Class.method by build_calls_map. -/
theorem build_call_graph_adjacency (functions : List (String × FuncVal))
    (classes : List (String × ClassVal)) (x y : String) :
    (y ∈ getList (build_call_graph functions classes).1 x ↔
        x ∈ getList (build_call_graph functions classes).2 y)
    ∧ (getList (build_call_graph functions classes).2 y).Nodup
    ∧ getList (build_call_graph functions classes).2 y
        = ((build_call_graph functions classes).1.filter
            (fun p => p.2.contains y)).map Prod.fst := by
  have hnd := nodup_dictKeys_build_calls_map functions classes
  have hfst : (build_call_graph functions classes).1 = build_calls_map functions classes := rfl
  have hinv : getList (build_call_graph functions classes).2 y
      = ((build_calls_map functions classes).filter
          (fun p => p.2.contains y)).map Prod.fst := by
    have h0 : ∀ p ∈ build_calls_map functions classes, p.1 ∉ getList [] y := by
      intro p _
      simp [getList, dictGet]
    have := invert_getList (build_calls_map functions classes) [] y h0 hnd
    simpa [build_call_graph, build_called_by_map, getList, dictGet] using this
  refine ⟨?_, ?_, by rw [hinv, hfst]⟩
  · rw [hinv, hfst]
    exact mem_getList_iff _ hnd x y
  · rw [hinv]
    exact List.Nodup.sublist ((List.filter_sublist _).map Prod.fst) hnd

theorem foldl_filterMap_dictSet {β : Type _}
    (ex : β → Option (String × List String)) (l : List β) :
    ∀ acc, l.foldl
        (fun m b =>
          match ex b with
          | some e => dictSet m e.1 e.2
          | none => m) acc
      = (l.filterMap ex).foldl (fun m e => dictSet m e.1 e.2) acc := by
  induction l with
  | nil => intro acc; simp
  | cons b rest ih =>
    intro acc
    rw [List.foldl_cons, List.filterMap_cons]
    cases hb : ex b with
    | none => simp only; exact ih acc
    | some e => simp only [List.foldl_cons]; exact ih _

theorem build_calls_map_eq_entries (functions : List (String × FuncVal))
    (classes : List (String × ClassVal)) :
    build_calls_map functions classes
      = (call_entries functions classes).foldl (fun m e => dictSet m e.1 e.2) [] := by
  have hfun : ∀ acc, functions.foldl
      (fun m p =>
        match p.2 with
        | .dict info =>
          match info.calls with
          | some cs => dictSet m p.1 cs
          | none => m
        | .str _ => m) acc
      = (functions.filterMap
          (fun p =>
            match p.2 with
            | .dict info => info.calls.map (fun cs => (p.1, cs))
            | .str _ => none)).foldl (fun m e => dictSet m e.1 e.2) acc := by
    intro acc
    rw [← foldl_filterMap_dictSet]
    apply List.foldl_ext
    intro m p _
    rcases p with ⟨k, v⟩
    cases v with
    | str s => rfl
    | dict info =>
      dsimp only
      cases info.calls with
      | none => rfl
      | some cs => rfl
  have hmeth : ∀ (cn : String) (ms : List (String × FuncVal)) (acc : List (String × List String)),
      ms.foldl
        (fun m q =>
          match q.2 with
          | .dict info =>
            match info.calls with
            | some cs => dictSet m (cn ++ "." ++ q.1) cs
            | none => m
          | .str _ => m) acc
      = (ms.filterMap
          (fun q =>
            match q.2 with
            | .dict info => info.calls.map (fun cs => (cn ++ "." ++ q.1, cs))
            | .str _ => none)).foldl (fun m e => dictSet m e.1 e.2) acc := by
    intro cn ms acc
    rw [← foldl_filterMap_dictSet]
    apply List.foldl_ext
    intro m q _
    rcases q with ⟨mn, mv⟩
    cases mv with
    | str s => rfl
    | dict info =>
      dsimp only
      cases info.calls with
      | none => rfl
      | some cs => rfl
  have hcls : ∀ acc, classes.foldl
      (fun m p =>
        match p.2 with
        | .dict cinfo =>
          match cinfo.methods with
          | some ms =>
            ms.foldl
              (fun m q =>
                match q.2 with
                | .dict info =>
                  match info.calls with
                  | some cs => dictSet m (p.1 ++ "." ++ q.1) cs
                  | none => m
                | .str _ => m) m
          | none => m
        | .str _ => m) acc
      = ((classes.map
          (fun p =>
            match p.2 with
            | .dict cinfo =>
              (cinfo.methods.getD []).filterMap
                (fun q =>
                  match q.2 with
                  | .dict info => info.calls.map (fun cs => (p.1 ++ "." ++ q.1, cs))
                  | .str _ => none)
            | .str _ => [])).flatten).foldl (fun m e => dictSet m e.1 e.2) acc := by
    intro acc
    rw [List.foldl_flatten, List.foldl_map]
    apply List.foldl_ext
    intro m p _
    rcases p with ⟨cn, cv⟩
    cases cv with
    | str s => rfl
    | dict cinfo =>
      dsimp only
      cases cinfo.methods with
      | none => simp
      | some ms => simpa using hmeth cn ms m
  show classes.foldl _ (functions.foldl _ []) = _
  rw [hfun, hcls, call_entries, List.foldl_append]

/-- C10: with the dict-uniqueness of keys that CPython guarantees, the forward
map of the assembled graph is exactly the entry list described by
call_entries: only the function names and Class.method names whose record is a
dict containing calls appear, every other (string-valued or calls-less) entry
is silently omitted, and each calls list is copied verbatim in order. -/
theorem build_call_graph_calls_map_exact (functions : List (String × FuncVal))
    (classes : List (String × ClassVal))
    (h : (dictKeys (call_entries functions classes)).Nodup) :
    (build_call_graph functions classes).1 = call_entries functions classes := by
  show build_calls_map functions classes = _
  rw [build_calls_map_eq_entries]
  simpa using foldl_dictSet_fresh (call_entries functions classes) [] h
    (by simp [dictKeys])

/-- Witness for C10 at a heterogeneous concrete input: a string-valued function
entry (the shape the shell scanner emits for a record with no doc and no calls),
a dict lacking calls, a string-valued class, a class dict without methods and a
string-valued method are all omitted; the remaining two entries are copied
verbatim, the method keyed as L.n. -/
theorem build_call_graph_calls_map_exact_witness :
    (build_call_graph
        [("a", FuncVal.str "()"), ("b", FuncVal.dict {}),
         ("c", FuncVal.dict { calls := some ["a"] })]
        [("K", ClassVal.str "sig"),
         ("L", ClassVal.dict
            { methods := some [("m", FuncVal.str "()"),
                               ("n", FuncVal.dict { calls := some ["q", "q"] })] }),
         ("M", ClassVal.dict {})]).1
      = [("c", ["a"]), ("L.n", ["q", "q"])] :=
  (build_call_graph_calls_map_exact _ _ (by decide)).trans (by decide)

/-! ## Order and set lemmas for the extractors -/

theorem lexLe_total : ∀ a b : List Char, lexLe a b = true ∨ lexLe b a = true := by
  intro a
  induction a with
  | nil => intro b; left; simp [lexLe]
  | cons x xs ih =>
    intro b
    cases b with
    | nil => right; simp [lexLe]
    | cons y ys =>
      rcases Nat.lt_trichotomy x.toNat y.toNat with h | h | h
      · left; simp [lexLe, h]
      · have hnlt : ¬ x.toNat < y.toNat := by omega
        have hnlt2 : ¬ y.toNat < x.toNat := by omega
        rcases ih ys with h2 | h2
        · left; simp [lexLe, hnlt, h, h2]
        · right; simp [lexLe, hnlt2, h.symm, h2]
      · right; simp [lexLe, h]

theorem lexLe_trans :
    ∀ a b c : List Char, lexLe a b = true → lexLe b c = true → lexLe a c = true := by
  intro a
  induction a with
  | nil => intro b c _ _; simp [lexLe]
  | cons x xs ih =>
    intro b c hab hbc
    cases b with
    | nil => simp [lexLe] at hab
    | cons y ys =>
      cases c with
      | nil => simp [lexLe] at hbc
      | cons z zs =>
        by_cases h1 : x.toNat < y.toNat
        · by_cases h2 : y.toNat < z.toNat
          · simp [lexLe, show x.toNat < z.toNat by omega]
          · by_cases h2e : y.toNat = z.toNat
            · simp [lexLe, show x.toNat < z.toNat by omega]
            · simp [lexLe, h2, h2e] at hbc
        · by_cases h1e : x.toNat = y.toNat
          · simp only [lexLe] at hab
            rw [if_neg h1, if_pos h1e] at hab
            by_cases h2 : y.toNat < z.toNat
            · simp [lexLe, show x.toNat < z.toNat by omega]
            · by_cases h2e : y.toNat = z.toNat
              · simp only [lexLe] at hbc
                rw [if_neg h2, if_pos h2e] at hbc
                have hxz : ¬ x.toNat < z.toNat := by omega
                have hxz2 : x.toNat = z.toNat := by omega
                simp only [lexLe]
                rw [if_neg hxz, if_pos hxz2]
                exact ih ys zs hab hbc
              · simp [lexLe, h2, h2e] at hbc
          · simp [lexLe, h1, h1e] at hab

theorem mem_pySorted (l : List String) (a : String) : a ∈ pySorted l ↔ a ∈ l :=
  (List.perm_insertionSort _ _).mem_iff

theorem sorted_pySorted (l : List String) :
    List.Sorted (fun a b => strLe a b = true) (pySorted l) := by
  haveI : IsTotal String (fun a b => strLe a b = true) :=
    ⟨fun a b => lexLe_total a.data b.data⟩
  haveI : IsTrans String (fun a b => strLe a b = true) :=
    ⟨fun a b c => lexLe_trans a.data b.data c.data⟩
  exact List.sorted_insertionSort _ _

theorem nodup_pySorted (l : List String) (h : l.Nodup) : (pySorted l).Nodup :=
  (List.perm_insertionSort _ _).nodup_iff.mpr h

theorem mem_setAdd (l : List String) (x a : String) :
    a ∈ setAdd l x ↔ a ∈ l ∨ a = x := by
  unfold setAdd
  by_cases h : x ∈ l
  · simp only [h, if_true]
    exact ⟨Or.inl, fun hh => hh.elim id (fun he => he ▸ h)⟩
  · simp [h]

theorem mem_setAddAll (xs : List String) :
    ∀ (l : List String) (a : String), a ∈ setAddAll l xs ↔ a ∈ l ∨ a ∈ xs := by
  induction xs with
  | nil => intro l a; simp [setAddAll]
  | cons x rest ih =>
    intro l a
    have : setAddAll l (x :: rest) = setAddAll (setAdd l x) rest := rfl
    rw [this, ih, mem_setAdd]
    simp only [List.mem_cons]
    tauto

theorem nodup_setAdd (l : List String) (x : String) (h : l.Nodup) :
    (setAdd l x).Nodup := by
  unfold setAdd
  by_cases hx : x ∈ l
  · simpa [hx] using h
  · simp only [hx, if_false]
    rw [List.nodup_append]
    exact ⟨h, by simp, by intro a ha hb; simp at hb; rw [hb] at ha; exact hx ha⟩

theorem nodup_setAddAll (xs : List String) :
    ∀ l : List String, l.Nodup → (setAddAll l xs).Nodup := by
  induction xs with
  | nil => intro l h; simpa [setAddAll] using h
  | cons x rest ih =>
    intro l h
    exact ih (setAdd l x) (nodup_setAdd l x h)

/-- C8: every call-reference extractor returns a list sorted ascending in the
code-point order by which Python sorted() sorts strings, duplicate-free, and a
subset of the known-symbol set. -/
theorem extract_function_calls_contract (body : String) (all_functions : List String) :
    (List.Sorted (fun a b => strLe a b = true)
        (extract_function_calls_python body all_functions)
      ∧ (extract_function_calls_python body all_functions).Nodup
      ∧ ∀ n ∈ extract_function_calls_python body all_functions, n ∈ all_functions)
    ∧ (List.Sorted (fun a b => strLe a b = true)
        (extract_function_calls_javascript body all_functions)
      ∧ (extract_function_calls_javascript body all_functions).Nodup
      ∧ ∀ n ∈ extract_function_calls_javascript body all_functions, n ∈ all_functions)
    ∧ (List.Sorted (fun a b => strLe a b = true)
        (extract_function_calls_shell body all_functions)
      ∧ (extract_function_calls_shell body all_functions).Nodup
      ∧ ∀ n ∈ extract_function_calls_shell body all_functions, n ∈ all_functions) := by
  refine ⟨⟨sorted_pySorted _, nodup_pySorted _ (nodup_setAddAll _ [] (by simp)), ?_⟩,
          ⟨sorted_pySorted _, nodup_pySorted _ (nodup_setAddAll _ [] (by simp)), ?_⟩,
          ⟨sorted_pySorted _, nodup_pySorted _ (nodup_setAddAll _ [] (by simp)), ?_⟩⟩
  · intro n hn
    rw [extract_function_calls_python] at hn
    rw [mem_pySorted, mem_setAddAll] at hn
    rcases hn with hn | hn
    · simp at hn
    · rcases List.mem_append.mp hn with hb | hr
      · have := (List.mem_filter.mp hb).2
        simp only [Bool.and_eq_true] at this
        exact List.elem_iff.mp this.1
      · have := (List.mem_filter.mp hr).2
        exact List.elem_iff.mp this
  · intro n hn
    rw [extract_function_calls_javascript] at hn
    rw [mem_pySorted, mem_setAddAll] at hn
    rcases hn with hn | hn
    · simp at hn
    · rcases List.mem_append.mp hn with hb | hr
      · have := (List.mem_filter.mp hb).2
        simp only [Bool.and_eq_true] at this
        exact List.elem_iff.mp this.1
      · have := (List.mem_filter.mp hr).2
        exact List.elem_iff.mp this
  · intro n hn
    rw [extract_function_calls_shell] at hn
    rw [mem_pySorted, mem_setAddAll] at hn
    rcases hn with hn | hn
    · simp at hn
    · exact (List.mem_filter.mp hn).1

/-- Witness for C8: applying the contract at a concrete body shows the only
extracted name is a member of the known-symbol set. -/
theorem extract_function_calls_contract_witness : "baz" ∈ (["bar", "baz"] : List String) :=
  (extract_function_calls_contract "baz()" ["bar", "baz"]).1.2.2 "baz" (by decide)

/-- C2 counterexample: the receiver-call pattern bypasses the exclusion lists.
With known symbol open (a name on the Python exclusion list), the body
self.open() yields a calls list containing open; the JavaScript run shows the
same with parseInt via this.parseInt(). -/
theorem extract_function_calls_exclusion_counterexample :
    ("open" ∈ extract_function_calls_python "self.open()" ["open"]
      ∧ "open" ∈ python_exclude_keywords)
    ∧ ("parseInt" ∈ extract_function_calls_javascript "this.parseInt()" ["parseInt"]
      ∧ "parseInt" ∈ javascript_exclude_keywords) := by
  refine ⟨⟨by decide, by decide⟩, ⟨by decide, by decide⟩⟩

/-- C2 amended: an extracted name never comes from the bare-call pattern when it
is on the exclusion list; any excluded name in the result was matched by the
receiver-call pattern (and is in the known-symbol set).  Equivalently, every
entry of the result is either off the exclusion list or a receiver-pattern
match of the body. -/
theorem extract_function_calls_excluded_only_via_receiver
    (body : String) (all_functions : List String) (n : String) :
    (n ∈ extract_function_calls_python body all_functions →
      n ∉ python_exclude_keywords ∨ n ∈ recvCallNames body.data)
    ∧ (n ∈ extract_function_calls_javascript body all_functions →
      n ∉ javascript_exclude_keywords ∨ n ∈ recvCallNames body.data) := by
  constructor
  · intro hn
    rw [extract_function_calls_python, mem_pySorted, mem_setAddAll] at hn
    rcases hn with hn | hn
    · simp at hn
    · rcases List.mem_append.mp hn with hb | hr
      · left
        have := (List.mem_filter.mp hb).2
        simp only [Bool.and_eq_true, Bool.not_eq_true'] at this
        intro hmem
        have hc : python_exclude_keywords.contains n = true := List.elem_iff.mpr hmem
        rw [this.2] at hc
        exact Bool.false_ne_true hc
      · right
        exact (List.mem_filter.mp hr).1
  · intro hn
    rw [extract_function_calls_javascript, mem_pySorted, mem_setAddAll] at hn
    rcases hn with hn | hn
    · simp at hn
    · rcases List.mem_append.mp hn with hb | hr
      · left
        have := (List.mem_filter.mp hb).2
        simp only [Bool.and_eq_true, Bool.not_eq_true'] at this
        intro hmem
        have hc : javascript_exclude_keywords.contains n = true := List.elem_iff.mpr hmem
        rw [this.2] at hc
        exact Bool.false_ne_true hc
      · right
        exact (List.mem_filter.mp hr).1

/-- Witness for the amended C2: at body self.open() with known symbol open, the
theorem instantiates to a true disjunction (here the right disjunct holds: the
name was matched by the receiver pattern). -/
theorem extract_function_calls_excluded_only_via_receiver_witness :
    "open" ∉ python_exclude_keywords ∨ "open" ∈ recvCallNames "self.open()".data :=
  (extract_function_calls_excluded_only_via_receiver "self.open()" ["open"] "open").1
    (by decide)

/-! ## Shell scanner facts -/

/-- C7 counterexample: on the one-line input of the scenario the parameter scan
(which starts at the following line) never sees the body, so the signature is
the empty parameter list, and with no doc and no calls the entry is stored as a
bare string rather than a record; in particular the signature is not ($1). -/
theorem shell_greet_signature_counterexample :
    (extract_shell_signatures "greet() \x7b echo \"hi $1\"; \x7d").functions
      = some [("greet", FuncVal.str "()")]
    ∧ "()" ≠ "($1)" := by
  exact ⟨by decide, by decide⟩

/-- C7 amended: the scenario input yields the bare signature string () for
greet; the parameter synthesis produces ($1) (still as a bare string) when the
braces and body sit on the lines after the declaration. -/
theorem shell_greet_signature_amended :
    (extract_shell_signatures "greet() \x7b echo \"hi $1\"; \x7d").functions
      = some [("greet", FuncVal.str "()")]
    ∧ (extract_shell_signatures "greet()\n\x7b\n  echo \"hi $1\"\n\x7d").functions
      = some [("greet", FuncVal.str "($1)")] := by
  exact ⟨by decide, by decide⟩

theorem shStep_sources_nodup (lines : List (List Char)) (allNames : List String)
    (st : ShellSt) (i : Nat) (h : st.sources.Nodup) :
    (shStep lines allNames st i).sources.Nodup := by
  unfold shStep
  dsimp only
  repeat' split
  all_goals try exact h
  rename_i hguard
  simp only [Bool.and_eq_true, Bool.not_eq_true'] at hguard
  simp only [List.contains] at hguard
  rw [List.nodup_append]
  refine ⟨h, by simp, ?_⟩
  intro a ha
  simp only [List.mem_singleton]
  intro hb
  rw [hb] at ha
  have := List.elem_iff.mpr ha
  rw [hguard.2] at this
  exact Bool.false_ne_true this

theorem shScan_sources_nodup (lines : List (List Char)) :
    (shScan lines).sources.Nodup := by
  unfold shScan
  apply foldl_preserves (fun s : ShellSt => s.sources.Nodup)
  · intro s i hs
    exact shStep_sources_nodup lines (shAllFunctionNames lines) s i hs
  · simp

theorem shell_sources_present_nodup (content : String) (l : List String)
    (hl : (extract_shell_signatures content).sources = some l) : l.Nodup := by
  unfold extract_shell_signatures shAssemble at hl
  simp only at hl
  by_cases he : (shScan (splitOnChar '\n' content.data)).sources.isEmpty
  · rw [if_pos he] at hl
    exact absurd hl (by simp)
  · rw [if_neg he] at hl
    have := shScan_sources_nodup (splitOnChar '\n' content.data)
    rwa [← Option.some.injEq l _ |>.mp hl.symm] at this

/-! ## Scenario and pruning facts (C3, C4, C9) -/

/-- C3 counterexample: on the literal scenario input, whose method body sits on
the same line as its def, the body collector (which only takes following lines
indented deeper than the def) finds nothing, so the bar record carries no calls
key at all, against the claimed calls of baz; the exception classification
holds. -/
theorem python_scenario_counterexample :
    classTypeOf (extract_python_signatures
        "class Foo(Exception):\n    def bar(self): return baz()\ndef baz():\n    return 1")
        "Foo" = some "exception"
    ∧ methodCallsOf (extract_python_signatures
        "class Foo(Exception):\n    def bar(self): return baz()\ndef baz():\n    return 1")
        "Foo" "bar" = none := by
  exact ⟨by decide, by decide⟩

/-- C3 amended: with the one-line method body the record has no calls (and the
exception classification holds); when the body is on its own line the scenario
behaves as claimed, with calls equal to the singleton baz. -/
theorem python_scenario_amended :
    (classTypeOf (extract_python_signatures
        "class Foo(Exception):\n    def bar(self): return baz()\ndef baz():\n    return 1")
        "Foo" = some "exception"
      ∧ methodCallsOf (extract_python_signatures
        "class Foo(Exception):\n    def bar(self): return baz()\ndef baz():\n    return 1")
        "Foo" "bar" = none)
    ∧ (classTypeOf (extract_python_signatures
        "class Foo(Exception):\n    def bar(self):\n        return baz()\ndef baz():\n    return 1")
        "Foo" = some "exception"
      ∧ methodCallsOf (extract_python_signatures
        "class Foo(Exception):\n    def bar(self):\n        return baz()\ndef baz():\n    return 1")
        "Foo" "bar" = some ["baz"]) := by
  exact ⟨⟨by decide, by decide⟩, ⟨by decide, by decide⟩⟩

theorem optionOfListNonempty {α : Type} (x l : List α)
    (h : (if x.isEmpty then none else some x) = some l) : l ≠ [] := by
  by_cases he : x.isEmpty
  · rw [if_pos he] at h
    exact absurd h (by simp)
  · rw [if_neg he] at h
    have : x = l := by injection h
    rw [← this]
    intro hx
    rw [hx] at he
    exact he rfl

/-- C4 counterexample: on the empty input the functions, classes and call_graph
keys are present and map to empty containers. -/
theorem empty_containers_counterexample :
    (extract_python_signatures "").functions = some []
    ∧ (extract_python_signatures "").classes = some []
    ∧ (extract_python_signatures "").call_graph = some [] := by
  exact ⟨by decide, by decide, by decide⟩

/-- C4 amended: the result assemblers prune exactly the optional keys — a
pruned key, when present, is nonempty — while functions, classes (Python and
JavaScript) and call_graph are always present, possibly as empty containers.
The Python and shell parts hold for every input text; the JavaScript part is
stated of the cleanup the cited lines implement, for every pre-cleanup state. -/
theorem empty_containers_amended :
    (∀ content : String,
      ((extract_python_signatures content).functions.isSome
        ∧ (extract_python_signatures content).classes.isSome
        ∧ (extract_python_signatures content).call_graph.isSome)
      ∧ (∀ l, (extract_python_signatures content).imports = some l → l ≠ [])
      ∧ (∀ l, (extract_python_signatures content).constants = some l → l ≠ [])
      ∧ (∀ l, (extract_python_signatures content).variables' = some l → l ≠ [])
      ∧ (∀ l, (extract_python_signatures content).type_aliases = some l → l ≠ [])
      ∧ (∀ l, (extract_python_signatures content).enums = some l → l ≠ []))
    ∧ (∀ content : String,
      ((extract_shell_signatures content).functions.isSome
        ∧ (extract_shell_signatures content).call_graph.isSome)
      ∧ (∀ l, (extract_shell_signatures content).variables' = some l → l ≠ [])
      ∧ (∀ l, (extract_shell_signatures content).exports = some l → l ≠ [])
      ∧ (∀ l, (extract_shell_signatures content).sources = some l → l ≠ []))
    ∧ (∀ full : JSFull,
      ((jsCleanup full).functions = some full.functions
        ∧ (jsCleanup full).classes.isSome
        ∧ (jsCleanup full).call_graph = some full.call_graph)
      ∧ (∀ l, (jsCleanup full).imports = some l → l ≠ [])
      ∧ (∀ l, (jsCleanup full).constants = some l → l ≠ [])
      ∧ (∀ l, (jsCleanup full).variables' = some l → l ≠ [])
      ∧ (∀ l, (jsCleanup full).type_aliases = some l → l ≠ [])
      ∧ (∀ l, (jsCleanup full).interfaces = some l → l ≠ [])
      ∧ (∀ l, (jsCleanup full).enums = some l → l ≠ [])) := by
  refine ⟨?_, ?_, ?_⟩
  · intro content
    unfold extract_python_signatures pyAssemble
    dsimp only
    exact ⟨⟨rfl, rfl, rfl⟩,
      fun l => optionOfListNonempty _ l, fun l => optionOfListNonempty _ l,
      fun l => optionOfListNonempty _ l, fun l => optionOfListNonempty _ l,
      fun l => optionOfListNonempty _ l⟩
  · intro content
    unfold extract_shell_signatures shAssemble
    dsimp only
    exact ⟨⟨rfl, rfl⟩,
      fun l => optionOfListNonempty _ l, fun l => optionOfListNonempty _ l,
      fun l => optionOfListNonempty _ l⟩
  · intro full
    unfold jsCleanup
    dsimp only
    exact ⟨⟨rfl, rfl, rfl⟩,
      fun l => optionOfListNonempty _ l, fun l => optionOfListNonempty _ l,
      fun l => optionOfListNonempty _ l, fun l => optionOfListNonempty _ l,
      fun l => optionOfListNonempty _ l, fun l => optionOfListNonempty _ l⟩

/-- Witness for the amended C4: applied at a concrete input, the imports key of
the result is present exactly with its nonempty content. -/
theorem empty_containers_amended_witness : (["os"] : List String) ≠ [] :=
  ((empty_containers_amended).1 "import os").2.1 ["os"] (by decide)

/-- C9 counterexample: two identical import statements yield the module
reference twice. -/
theorem imports_dedup_counterexample :
    (extract_python_signatures "import os\nimport os").imports = some ["os", "os"] := by
  decide

/-- C9 amended: the shell sources list is deduplicated for every input, while
the Python (and JavaScript) import collectors append without a membership
check, so a module imported twice appears twice. -/
theorem imports_dedup_amended :
    (∀ (content : String) (l : List String),
      (extract_shell_signatures content).sources = some l → l.Nodup)
    ∧ (extract_python_signatures "import os\nimport os").imports = some ["os", "os"] := by
  exact ⟨fun content l h => shell_sources_present_nodup content l h, by decide⟩

/-- Witness for the amended C9: applied at a concrete two-source input, the
sources list is duplicate-free. -/
theorem imports_dedup_amended_witness : (["./a.sh", "./b.sh"] : List String).Nodup :=
  (imports_dedup_amended).1 "source ./a.sh\nsource ./b.sh" ["./a.sh", "./b.sh"] (by decide)

theorem collectSigAux_no_terminator (lines : List (List Char)) :
    ∀ (fuel : Nat) (sig : List Char) (j : Nat),
      (∀ k < lines.length, j ≤ k → hasSigTerminator (lines.getD k []) = false) →
      collectSigAux lines fuel sig j = none := by
  intro fuel
  induction fuel with
  | zero => intro sig j _; rfl
  | succ f ih =>
    intro sig j h
    unfold collectSigAux
    by_cases hj : j < lines.length
    · rw [if_pos hj, h j hj le_rfl]
      simp only [Bool.false_eq_true, if_false]
      by_cases hj1 : j + 1 < lines.length
      · rw [if_pos hj1]
        exact ih _ _ (fun k hk hk2 => h k hk (by omega))
      · rw [if_neg hj1]
    · rw [if_neg hj]

theorem collectSigAux_terminator (lines : List (List Char)) :
    ∀ (fuel : Nat) (sig : List Char) (j j0 : Nat),
      j ≤ j0 → j0 < lines.length →
      hasSigTerminator (lines.getD j0 []) = true →
      (∀ k < j0, j ≤ k → hasSigTerminator (lines.getD k []) = false) →
      j0 - j < fuel →
      collectSigAux lines fuel sig j
        = some (sig ++ ((List.range' (j + 1) (j0 - j)).map
            (fun k => ' ' :: pyStrip (lines.getD k []))).flatten, j0) := by
  intro fuel
  induction fuel with
  | zero => intro sig j j0 _ _ _ _ hf; omega
  | succ f ih =>
    intro sig j j0 hjj hj0 hterm hmin hf
    unfold collectSigAux
    have hj : j < lines.length := by omega
    rw [if_pos hj]
    by_cases hje : j = j0
    · subst hje
      rw [hterm]
      simp
    · have hjlt : j < j0 := by omega
      rw [hmin j hjlt le_rfl]
      simp only [Bool.false_eq_true, if_false]
      have hj1 : j + 1 < lines.length := by omega
      rw [if_pos hj1]
      rw [ih _ (j + 1) j0 (by omega) hj0 hterm (fun k hk hk2 => hmin k hk (by omega))
        (by omega)]
      have hn : j0 - j = (j0 - (j + 1)) + 1 := by omega
      rw [hn, List.range'_succ]
      simp [List.flatten_cons, List.append_assoc]

/-- C5: the multi-line signature collection concatenates the trimmed following
lines until a line containing the terminator (a closing parenthesis with a
colon after it) and returns the concatenation with the terminator index; when
no line from the declaration to the end of file contains the terminator it
returns none, and the scanner then emits nothing for that declaration and
continues with the rest of the file — demonstrated on a concrete input whose
unterminated def is dropped while the following constant is still recorded. -/
theorem multiline_signature_discard :
    (∀ (lines : List (List Char)) (i : Nat),
      (∀ k < lines.length, i ≤ k → hasSigTerminator (lines.getD k []) = false) →
      collectSig lines i = none)
    ∧ (∀ (lines : List (List Char)) (i j0 : Nat),
      i ≤ j0 → j0 < lines.length →
      hasSigTerminator (lines.getD j0 []) = true →
      (∀ k < j0, i ≤ k → hasSigTerminator (lines.getD k []) = false) →
      collectSig lines i = some (collectedSig lines i j0, j0))
    ∧ ((extract_python_signatures "def broken(\nX = 5").functions = some []
      ∧ (extract_python_signatures "def broken(\nX = 5").constants
          = some [("X", "number")]) := by
  refine ⟨?_, ?_, by decide, by decide⟩
  · intro lines i h
    exact collectSigAux_no_terminator lines _ _ i h
  · intro lines i j0 hij hj0 hterm hmin
    exact collectSigAux_terminator lines _ _ i j0 hij hj0 hterm hmin (by omega)

/-- Witness for C5: on the concrete unterminated input the collection loop
returns none, the no-terminator hypothesis discharged by evaluation. -/
theorem multiline_signature_discard_witness :
    collectSig (splitOnChar '\n' "def broken(\nX = 5".data) 0 = none :=
  (multiline_signature_discard).1 (splitOnChar '\n' "def broken(\nX = 5".data) 0 (by decide)

/-! ## Key preservation of the Python scanner (towards C6) -/

theorem dictKeys_updClass (classes : List (String × ClassInfo)) (name : String)
    (f : ClassInfo → ClassInfo) :
    dictKeys (updClass classes name f) = dictKeys classes := by
  unfold updClass dictKeys
  rw [List.map_map]
  apply List.map_congr_left
  intro p _
  by_cases h : p.1 = name <;> simp [h]

theorem pyClassStep_classes_nodup (lines : List (List Char)) (st : PySt) (i : Nat)
    (lvl : Nat) (cname : String) (bases : Option (List Char))
    (h : (dictKeys st.classes).Nodup) :
    (dictKeys (pyClassStep lines st i lvl cname bases).classes).Nodup := by
  unfold pyClassStep
  dsimp only
  split
  · exact nodup_dictKeys_dictSet _ _ _ h
  · exact h

theorem pyMarkAbstract_keys (st : PySt) :
    dictKeys (pyMarkAbstract st) = dictKeys st.classes := by
  unfold pyMarkAbstract
  split
  · cases hc : st.curClass with
    | none => rfl
    | some p => exact dictKeys_updClass _ _ _
  · rfl

theorem pyPlaceFunc_classes_keys (st1 : PySt) (lvl : Nat) (name : String)
    (fv : FuncVal) :
    dictKeys (pyPlaceFunc st1 lvl name fv).classes = dictKeys st1.classes := by
  unfold pyPlaceFunc
  cases hc : st1.curClass with
  | none =>
    dsimp only
    split
    · rfl
    · rfl
  | some p =>
    rcases p with ⟨ccName, cci⟩
    dsimp only
    split
    · dsimp only
      exact dictKeys_updClass st1.classes ccName _
    · split
      · rfl
      · rfl

theorem pyFuncStore_classes_keys (lines : List (List Char)) (allNames : List String)
    (st : PySt) (j lvl : Nat) (isAsync : Bool) (name : String)
    (paramsRaw : List Char) (ret : Option (List Char)) (indent : Nat) :
    dictKeys (pyFuncStore lines allNames st j lvl isAsync name paramsRaw ret indent).classes
      = dictKeys st.classes := by
  unfold pyFuncStore
  dsimp only
  rw [pyPlaceFunc_classes_keys]
  exact pyMarkAbstract_keys st

theorem pyPropertyCheck_classes_keys (line : List Char) (st : PySt) :
    dictKeys (pyPropertyCheck line st).classes = dictKeys st.classes := by
  unfold pyPropertyCheck
  cases hc : st.curClass with
  | none => rfl
  | some p =>
    rcases p with ⟨ccName, cci⟩
    cases hm : pyPropertyMatch line with
    | none => rfl
    | some q =>
      rcases q with ⟨ind, pname⟩
      dsimp only
      split
      · dsimp only
        exact dictKeys_updClass st.classes ccName _
      · rfl

theorem pyModuleStep_classes (line : List Char) (st : PySt) (i : Nat)
    (r : PySt × Nat) (h : pyModuleStep line st i = some r) :
    r.1.classes = st.classes := by
  unfold pyModuleStep at h
  by_cases hcur : st.curClass.isSome
  · rw [if_pos hcur] at h
    exact absurd h (by simp)
  · rw [if_neg hcur] at h
    cases hta : pyTypeAliasMatch line with
    | some aname =>
      rw [hta] at h
      simp only [Option.some.injEq] at h
      rw [← h]
    | none =>
      rw [hta] at h
      cases hmc : pyModuleConstMatch line with
      | some p =>
        rw [hmc] at h
        simp only [Option.some.injEq] at h
        rw [← h]
      | none =>
        rw [hmc] at h
        cases hmv : pyModuleVarMatch line with
        | some vname =>
          rw [hmv] at h
          simp only [Option.some.injEq] at h
          rw [← h]
          dsimp only
          split
          · rfl
          · rfl
        | none =>
          rw [hmv] at h
          exact absurd h (by simp)

theorem pyDedent_classes (line stripped : List Char) (st : PySt) :
    (pyDedent line stripped st).classes = st.classes := by
  unfold pyDedent
  cases hc : st.curClass with
  | none => rfl
  | some p =>
    rcases p with ⟨a, cci⟩
    dsimp only
    split
    · rfl
    · rfl

theorem pyEnumStep_classes_keys (line : List Char) (st : PySt) (i : Nat)
    (r : PySt × Nat) (h : pyEnumStep line st i = some r) :
    dictKeys r.1.classes = dictKeys st.classes := by
  unfold pyEnumStep at h
  cases hc : st.curClass with
  | none => rw [hc] at h; exact absurd h (by simp)
  | some p =>
    rcases p with ⟨ccName, cci⟩
    rw [hc] at h
    dsimp only at h
    by_cases ht : ((dictGet st.classes ccName).bind ClassInfo.type) = some "enum"
    · rw [if_pos ht] at h
      cases hm : pyEnumValMatch line with
      | none => rw [hm] at h; exact absurd h (by simp)
      | some q =>
        rcases q with ⟨ind, ename⟩
        rw [hm] at h
        dsimp only at h
        by_cases hi2 : cci < ind
        · rw [if_pos hi2] at h
          simp only [Option.some.injEq] at h
          rw [← h]
          dsimp only
          exact dictKeys_updClass st.classes ccName _
        · rw [if_neg hi2] at h
          exact absurd h (by simp)
    · rw [if_neg ht] at h
      exact absurd h (by simp)

theorem pyClassConstStep_classes_keys (line : List Char) (st : PySt) (i : Nat)
    (r : PySt × Nat) (h : pyClassConstStep line st i = some r) :
    dictKeys r.1.classes = dictKeys st.classes := by
  unfold pyClassConstStep at h
  cases hc : st.curClass with
  | none => rw [hc] at h; exact absurd h (by simp)
  | some p =>
    rcases p with ⟨ccName, cci⟩
    rw [hc] at h
    dsimp only at h
    cases hm : pyClassConstMatch line with
    | none => rw [hm] at h; exact absurd h (by simp)
    | some q =>
      rcases q with ⟨ind, cname2, cval⟩
      rw [hm] at h
      dsimp only at h
      by_cases hi2 : cci < ind
      · rw [if_pos hi2] at h
        simp only [Option.some.injEq] at h
        rw [← h]
        dsimp only
        exact dictKeys_updClass st.classes ccName _
      · rw [if_neg hi2] at h
        exact absurd h (by simp)

theorem pyFuncStep_classes_keys (lines : List (List Char)) (allNames : List String)
    (line : List Char) (st : PySt) (i : Nat)
    (r : PySt × Nat) (h : pyFuncStep lines allNames line st i = some r) :
    dictKeys r.1.classes = dictKeys st.classes := by
  unfold pyFuncStep at h
  cases hs : pyFuncStartMatch line with
  | none => rw [hs] at h; exact absurd h (by simp)
  | some t =>
    rcases t with ⟨indentLevel, a, b⟩
    rw [hs] at h
    dsimp only at h
    cases hcs : collectSig lines i with
    | none =>
      rw [hcs] at h
      simp only [Option.some.injEq] at h
      rw [← h]
    | some fs =>
      rcases fs with ⟨fullSig, j⟩
      rw [hcs] at h
      dsimp only at h
      cases hfm : pyFuncFullMatch fullSig with
      | none =>
        rw [hfm] at h
        simp only [Option.some.injEq] at h
        rw [← h]
      | some t2 =>
        rcases t2 with ⟨indent, isAsync, name, paramsRaw, ret⟩
        rw [hfm] at h
        dsimp only at h
        by_cases hd : skip_dunder.contains name && !(name = "__init__")
        · rw [if_pos hd] at h
          simp only [Option.some.injEq] at h
          rw [← h]
        · rw [if_neg hd] at h
          simp only [Option.some.injEq] at h
          rw [← h]
          dsimp only
          rw [pyPropertyCheck_classes_keys, pyFuncStore_classes_keys]

theorem pyStep_classes_nodup (lines : List (List Char)) (allNames : List String)
    (st : PySt) (i : Nat) (h : (dictKeys st.classes).Nodup) :
    (dictKeys (pyStep lines allNames st i).1.classes).Nodup := by
  unfold pyStep
  dsimp only
  split
  · exact h
  · cases hd : pyDecoratorMatch (lines.getD i []) with
    | some dname => exact h
    | none =>
      dsimp only
      cases hm : pyModuleStep (lines.getD i []) st i with
      | some r =>
        rw [pyModuleStep_classes _ _ _ _ hm]
        exact h
      | none =>
        dsimp only
        cases hcm : pyClassMatch (lines.getD i []) with
        | some t =>
          rcases t with ⟨indentLevel, cname, bases⟩
          exact pyClassStep_classes_nodup _ _ _ _ _ _ h
        | none =>
          dsimp only
          have h2 : (dictKeys (pyDedent (lines.getD i []) (pyStrip (lines.getD i [])) st).classes).Nodup := by
            rw [pyDedent_classes]
            exact h
          cases he : pyEnumStep (lines.getD i []) (pyDedent (lines.getD i []) (pyStrip (lines.getD i [])) st) i with
          | some r =>
            rw [pyEnumStep_classes_keys _ _ _ _ he]
            exact h2
          | none =>
            dsimp only
            cases hcc : pyClassConstStep (lines.getD i []) (pyDedent (lines.getD i []) (pyStrip (lines.getD i [])) st) i with
            | some r =>
              rw [pyClassConstStep_classes_keys _ _ _ _ hcc]
              exact h2
            | none =>
              dsimp only
              cases hf : pyFuncStep lines allNames (lines.getD i []) (pyDedent (lines.getD i []) (pyStrip (lines.getD i [])) st) i with
              | some r =>
                rw [pyFuncStep_classes_keys _ _ _ _ _ _ hf]
                exact h2
              | none =>
                dsimp only
                rw [pyPropertyCheck_classes_keys]
                exact h2

theorem pyScanLoop_classes_nodup (lines : List (List Char)) (allNames : List String) :
    ∀ (fuel : Nat) (st : PySt) (i : Nat), (dictKeys st.classes).Nodup →
      (dictKeys (pyScanLoop lines allNames fuel st i).classes).Nodup := by
  intro fuel
  induction fuel with
  | zero => intro st i h; exact h
  | succ f ih =>
    intro st i h
    unfold pyScanLoop
    by_cases hi : i < lines.length
    · rw [if_pos hi]
      exact ih _ _ (pyStep_classes_nodup lines allNames st i h)
    · rw [if_neg hi]
      exact h

theorem pyScan_classes_nodup (lines : List (List Char)) :
    (dictKeys (pyScan lines).classes).Nodup := by
  unfold pyScan
  exact pyScanLoop_classes_nodup lines _ lines.length _ 0 (by simp [dictKeys])

/-! ## Enum migration (C6) -/

theorem pyCleanClass_type (ci : ClassInfo) : (pyCleanClass ci).type = ci.type := rfl

theorem pyCleanClass_doc (ci : ClassInfo) : (pyCleanClass ci).doc = ci.doc := rfl

theorem pyCleanClass_values_getD (ci : ClassInfo) :
    (pyCleanClass ci).values.getD [] = ci.values.getD [] := by
  unfold pyCleanClass
  cases hv : ci.values with
  | none => rfl
  | some l =>
    cases l with
    | nil => rfl
    | cons a as => rfl

theorem getD_if_isEmpty {α : Type} (x : List α) :
    (if x.isEmpty then none else some x).getD ([] : List α) = x := by
  by_cases he : x.isEmpty
  · rw [if_pos he]
    simp [List.isEmpty_iff.mp he]
  · rw [if_neg he]
    rfl

theorem pyAssemble_classes_getD (imports : List String) (st : PySt) :
    (pyAssemble imports st).classes.getD [] = pyKeptClasses st := rfl

theorem pyAssemble_enums_getD (imports : List String) (st : PySt) :
    (pyAssemble imports st).enums.getD [] = pyEnumsMove st := by
  unfold pyAssemble
  exact getD_if_isEmpty _

theorem dictKeys_pyCleanedClasses (st : PySt) :
    dictKeys (pyCleanedClasses st) = dictKeys st.classes := by
  unfold pyCleanedClasses dictKeys
  rw [List.map_map]
  apply List.map_congr_left
  intro p _
  rfl

/-- C6: for every input, no class of the final result is classified enum, no
name appears in both the classes and the enums tables, and a scanned class
record is classified enum exactly when the enums table of the final result
holds its migrated entry, carrying only the values list and the doc of the
record. -/
theorem enum_migration (content : String) :
    (∀ p ∈ (extract_python_signatures content).classes.getD [],
      ¬ p.2.type = some "enum")
    ∧ (∀ n, n ∈ dictKeys ((extract_python_signatures content).enums.getD []) →
        ¬ n ∈ dictKeys ((extract_python_signatures content).classes.getD []))
    ∧ (∀ p ∈ (pyScan (splitOnChar '\n' content.data)).classes,
        (p.2.type = some "enum" ↔
          (p.1, ({ values := p.2.values.getD [], doc := p.2.doc.getD "" } : EnumEntry))
            ∈ (extract_python_signatures content).enums.getD [])) := by
  have hr : extract_python_signatures content
      = pyAssemble (pyImportsOf (splitOnChar '\n' content.data))
          (pyScan (splitOnChar '\n' content.data)) := rfl
  have hclasses : (extract_python_signatures content).classes.getD []
      = pyKeptClasses (pyScan (splitOnChar '\n' content.data)) := by
    rw [hr, pyAssemble_classes_getD]
  have henums : (extract_python_signatures content).enums.getD []
      = pyEnumsMove (pyScan (splitOnChar '\n' content.data)) := by
    rw [hr, pyAssemble_enums_getD]
  have hnd : (dictKeys (pyScan (splitOnChar '\n' content.data)).classes).Nodup :=
    pyScan_classes_nodup _
  have hnd1 : (dictKeys (pyCleanedClasses (pyScan (splitOnChar '\n' content.data)))).Nodup := by
    rw [dictKeys_pyCleanedClasses]
    exact hnd
  refine ⟨?_, ?_, ?_⟩
  · intro p hp
    rw [hclasses] at hp
    have h2 := (List.mem_filter.mp hp).2
    simpa using h2
  · intro n hn hn2
    rw [henums] at hn
    rw [hclasses] at hn2
    unfold pyEnumsMove at hn
    unfold pyKeptClasses at hn2
    unfold dictKeys at hn hn2
    rw [List.map_map] at hn
    obtain ⟨a, ha, hafst⟩ := List.mem_map.mp hn
    obtain ⟨b, hb, hbfst⟩ := List.mem_map.mp hn2
    obtain ⟨ha1, ha2⟩ := List.mem_filter.mp ha
    obtain ⟨hb1, hb2⟩ := List.mem_filter.mp hb
    have hab : a = b := by
      apply List.inj_on_of_nodup_map (f := Prod.fst) hnd1 ha1 hb1
      have : (Prod.fst ∘ fun p => (p.1,
          ({ values := p.2.values.getD [], doc := p.2.doc.getD "" } : EnumEntry))) a = a.1 := rfl
      rw [this] at hafst
      rw [hafst, hbfst]
    rw [hab] at ha2
    rw [decide_eq_true_iff] at ha2
    simp only [ha2] at hb2
    simp at hb2
  · intro p hp
    constructor
    · intro htype
      rw [henums]
      unfold pyEnumsMove
      apply List.mem_map.mpr
      refine ⟨(p.1, pyCleanClass p.2), ?_, ?_⟩
      · apply List.mem_filter.mpr
        refine ⟨List.mem_map.mpr ⟨p, hp, rfl⟩, ?_⟩
        simp [pyCleanClass_type, htype]
      · simp [pyCleanClass_values_getD, pyCleanClass_doc]
    · intro hmem
      rw [henums] at hmem
      unfold pyEnumsMove at hmem
      obtain ⟨q, hq, heq⟩ := List.mem_map.mp hmem
      obtain ⟨hq1, hq2⟩ := List.mem_filter.mp hq
      obtain ⟨x, hx, hxq⟩ := List.mem_map.mp hq1
      have hkey : q.1 = p.1 := by
        have h2 := congrArg Prod.fst heq
        simpa using h2
      have hxkey : x.1 = p.1 := by
        rw [← hkey, ← hxq]
      have hxp : x = p :=
        List.inj_on_of_nodup_map (f := Prod.fst) hnd hx hp hxkey
      rw [decide_eq_true_iff] at hq2
      rw [← hxq] at hq2
      have : (pyCleanClass x.2).type = x.2.type := pyCleanClass_type x.2
      rw [this] at hq2
      rw [← hxp]
      exact hq2

/-- Witness for C6: on a concrete one-enum input the scanned class record is
enum-classified and the equivalence produces its migrated entry in the final
enums table. -/
theorem enum_migration_witness :
    ("C", ({ values := ["A"], doc := "" } : EnumEntry))
      ∈ (extract_python_signatures "class C(Enum):\n    A = 1").enums.getD [] :=
  ((enum_migration "class C(Enum):\n    A = 1").2.2
    ("C", { methods := some [], class_constants := some [], inherits := some ["Enum"],
            type := some "enum", line := some 1, values := some ["A"] })
    (by decide)).mp (by decide)
